import Mathlib

/-!
# gaseous-giganticus: cube-map coordinate mapper, curl field, advection, blending

A shallow embedding of `gaseous-giganticus.c`.  The C `float` type is embedded as
an arbitrary linearly ordered field `K` with a floor function (exact arithmetic;
rounding is modelled only in the binary floating point version of the blend), so every definition can be run over `ℚ` and reasoned
about over `ℝ`.  The C library `sqrt` is a parameter `sqrt : K → K`; the theorems
instantiate it with `Real.sqrt`.  A float division whose divisor is zero has no
exact value (the C program produces an infinity or a NaN there): it is embedded as
`none`.
-/

namespace GaseousGiganticus

/-! ## Constants and data model -/

/-- The C macro DIM, the grid resolution of one cube face. -/
def DIM : Int := 1024

/-- The C macro XDIM (defined as DIM). -/
def XDIM : Int := DIM

/-- The C macro YDIM (defined as DIM). -/
def YDIM : Int := DIM

/-- The C macro FDIM, `(float) (DIM - 1)`. -/
def FDIM (K : Type) [LinearOrderedField K] : K := ((DIM - 1 : Int) : K)

/-- The constant velocity_factor (10.0). -/
def velocity_factor (K : Type) [LinearOrderedField K] : K := 10

/-- The x, y, z view of the C union vec3. -/
structure vec3 (K : Type) where
  x : K
  y : K
  z : K

/-- The w, x, y, z view of the C union quat. -/
structure quat (K : Type) where
  w : K
  x : K
  y : K
  z : K

/-- The C struct color. -/
structure color (K : Type) where
  r : K
  g : K
  b : K
  a : K

/-- The C struct fij: face, i, j coordinates on a cube map. -/
structure fij where
  f : Int
  i : Int
  j : Int
deriving DecidableEq

/-- The C struct particle: a position and a color. -/
structure particle (K : Type) where
  pos : vec3 K
  c : color K

/-- The C struct velocity_field, `v[6][XDIM][YDIM]`, as a table indexed by face, i, j. -/
structure velocity_field (K : Type) where
  v : Int → Int → Int → vec3 K

section Defs

variable {K : Type} [LinearOrderedField K]

/-! ## Float primitives -/

/-- The C float division `a / b`: it has a value only when the divisor is not zero. -/
def fdiv (a b : K) : Option K :=
  if b = 0 then none else some (a / b)

/-- The C conversion `(int) x` of a float: truncation toward zero. -/
def float_to_int [FloorRing K] (x : K) : Int :=
  if 0 ≤ x then ⌊x⌋ else ⌈x⌉

/-! ## Color blending (lines 69-83) -/

/-- The function alphablendcolor. -/
def alphablendcolor (underchannel underalpha overchannel overalpha : K) : K :=
  overchannel * overalpha + underchannel * underalpha * (1 - overalpha)

/-- The function combine_color: the new alpha, then r, b, g, each divided by it. -/
def combine_color (oc c : color K) : Option (color K) :=
  let a := c.a + oc.a * (1 - c.a)
  (fdiv (alphablendcolor oc.r oc.a c.r c.a) a).bind fun r =>
  (fdiv (alphablendcolor oc.b oc.a c.b c.a) a).bind fun b =>
  (fdiv (alphablendcolor oc.g oc.a c.g c.a) a).bind fun g =>
  some { r := r, g := g, b := b, a := a }

/-! ## Color blending in binary floating point

The same two functions with the rounding of every C operation made explicit: `rf`
rounds to float, `rd` rounds to double.  With no rounding they are alphablendcolor and
combine_color above. -/

/-- Rounding to the nearest integer, a tie going to the even one. -/
def round_half_even [FloorRing K] (x : K) : Int :=
  if x - ⌊x⌋ < 1 / 2 then ⌊x⌋
  else if 1 / 2 < x - ⌊x⌋ then ⌊x⌋ + 1
  else if ⌊x⌋ % 2 = 0 then ⌊x⌋ else ⌊x⌋ + 1

/-- IEEE 754 rounding to nearest, ties to even, into the binary format with `p`
significand bits and least normal exponent `emin` (overflow is not represented). -/
def float_round [FloorRing K] (p : Nat) (emin : Int) (x : K) : K :=
  if x = 0 then 0
  else
    ((round_half_even (x / 2 ^ (max (Int.log 2 |x|) emin - ((p : Int) - 1))) : Int) : K) *
      2 ^ (max (Int.log 2 |x|) emin - ((p : Int) - 1))

/-- Rounding to the C type float, IEEE 754 binary32. -/
def binary32 [FloorRing K] (x : K) : K := float_round 24 (-126) x

/-- Rounding to the C type double, IEEE 754 binary64. -/
def binary64 [FloorRing K] (x : K) : K := float_round 53 (-1022) x

/-- The function alphablendcolor with its roundings: the two products of floats are
floats, `1.0 - overalpha`, the product with it and the sum are doubles, and the returned
value is converted to float. -/
def alphablendcolor_float (rf rd : K → K)
    (underchannel underalpha overchannel overalpha : K) : K :=
  rf (rd (rf (overchannel * overalpha) + rd (rf (underchannel * underalpha) * rd (1 - overalpha))))

/-- The function combine_color with its roundings: `1.0f - c->a`, the product, the sum
and the three quotients are float operations. -/
def combine_color_float (rf rd : K → K) (oc c : color K) : Option (color K) :=
  let a := rf (c.a + rf (oc.a * rf (1 - c.a)))
  (fdiv (alphablendcolor_float rf rd oc.r oc.a c.r c.a) a).bind fun r =>
  (fdiv (alphablendcolor_float rf rd oc.b oc.a c.b c.a) a).bind fun b =>
  (fdiv (alphablendcolor_float rf rd oc.g oc.a c.g c.a) a).bind fun g =>
  some { r := rf r, g := rf g, b := rf b, a := a }

/-! ## Vector helpers

`vec3_normalize`, `vec3_add_self`, `vec3_mul_self` and `vec3_mul` are declared in
`quat.h`, which is not part of the translated file. -/

/-- Modelled from the spec: the Euclidean magnitude of a vector (the helper of
`quat.h` behind "unit magnitude"), with the square root passed in. -/
def vec3_magnitude (sqrt : K → K) (v : vec3 K) : K :=
  sqrt (v.x * v.x + v.y * v.y + v.z * v.z)

/-- Modelled from the spec: vec3_normalize / vec3_normalize_self of `quat.h`
("normalized to unit length"): every component divided by the magnitude. -/
def vec3_normalize (sqrt : K → K) (vi : vec3 K) : Option (vec3 K) :=
  let len := vec3_magnitude sqrt vi
  (fdiv vi.x len).bind fun x =>
  (fdiv vi.y len).bind fun y =>
  (fdiv vi.z len).bind fun z =>
  some { x := x, y := y, z := z }

/-- Modelled from the spec: vec3_add_self of `quat.h` ("add it to the particle's
position"): componentwise sum. -/
def vec3_add (a b : vec3 K) : vec3 K :=
  { x := a.x + b.x, y := a.y + b.y, z := a.z + b.z }

/-- Modelled from the spec: vec3_mul / vec3_mul_self of `quat.h` ("scale", "rescale"):
every component multiplied by a scalar. -/
def vec3_mul (v : vec3 K) (s : K) : vec3 K :=
  { x := v.x * s, y := v.y * s, z := v.z * s }

/-- The dot product of two vectors (used to state orthogonality). -/
def vec3_dot (a b : vec3 K) : K :=
  a.x * b.x + a.y * b.y + a.z * b.z

/-! ## Coordinate mapper (lines 85-190) -/

/-- The switch of fij_to_xyz (lines 90-121): the vector before normalization.
A face outside 0..5 leaves `answer` unset: no value. -/
def fij_to_xyz_answer (f i j : Int) : Option (vec3 K) :=
  if f = 0 then
    some { x := ((i - XDIM / 2 : Int) : K) / ((XDIM : Int) : K),
           y := -((j - YDIM / 2 : Int) : K) / ((YDIM : Int) : K),
           z := ((DIM : Int) : K) / 2 }
  else if f = 1 then
    some { x := ((DIM : Int) : K) / 2,
           y := -((j - YDIM / 2 : Int) : K) / ((YDIM : Int) : K),
           z := -((i - XDIM / 2 : Int) : K) / ((XDIM : Int) : K) }
  else if f = 2 then
    some { x := -((i - XDIM / 2 : Int) : K) / ((XDIM : Int) : K),
           y := -((j - YDIM / 2 : Int) : K) / ((YDIM : Int) : K),
           z := -((DIM : Int) : K) / 2 }
  else if f = 3 then
    some { x := -((DIM : Int) : K) / 2,
           y := -((j - YDIM / 2 : Int) : K) / ((YDIM : Int) : K),
           z := ((i - XDIM / 2 : Int) : K) / ((XDIM : Int) : K) }
  else if f = 4 then
    some { x := ((i - XDIM / 2 : Int) : K) / ((XDIM : Int) : K),
           y := ((YDIM : Int) : K) / 2,
           z := ((j - YDIM / 2 : Int) : K) / ((YDIM : Int) : K) }
  else if f = 5 then
    some { x := ((i - XDIM / 2 : Int) : K) / ((XDIM : Int) : K),
           y := -((YDIM : Int) : K) / 2,
           z := -((j - YDIM / 2 : Int) : K) / ((YDIM : Int) : K) }
  else none

/-- The function fij_to_xyz: the switch, then vec3_normalize_self. -/
def fij_to_xyz (sqrt : K → K) (f i j : Int) : Option (vec3 K) :=
  (fij_to_xyz_answer f i j).bind (vec3_normalize sqrt)

/-- The expression `(int) ((n / d) * FDIM * 0.5 + 0.5 * FDIM)` that xyz_to_fij
uses for every grid index. -/
def grid_index [FloorRing K] (n d : K) : Option Int :=
  (fdiv n d).bind fun q => some (float_to_int (q * FDIM K * (1 / 2) + (1 / 2) * FDIM K))

/-- The branches of xyz_to_fij (lines 136-189) on the normalized vector `t`. -/
def xyz_to_fij_cell [FloorRing K] (t : vec3 K) : Option fij :=
  if |t.x| > |t.y| then
    if |t.x| > |t.z| then
      if t.x < 0 then
        (grid_index t.z |t.x|).bind fun i =>
        (grid_index (-t.y) |t.x|).bind fun j => some { f := 3, i := i, j := j }
      else
        (grid_index (-t.z) |t.x|).bind fun i =>
        (grid_index (-t.y) |t.x|).bind fun j => some { f := 1, i := i, j := j }
    else
      if t.z < 0 then
        (grid_index (-t.x) |t.z|).bind fun i =>
        (grid_index (-t.y) |t.z|).bind fun j => some { f := 2, i := i, j := j }
      else
        (grid_index t.x |t.z|).bind fun i =>
        (grid_index (-t.y) |t.z|).bind fun j => some { f := 0, i := i, j := j }
  else
    if |t.y| > |t.z| then
      if t.y < 0 then
        (grid_index (-t.z) |t.y|).bind fun j =>
        (grid_index t.x |t.y|).bind fun i => some { f := 5, i := i, j := j }
      else
        (grid_index t.z |t.y|).bind fun j =>
        (grid_index t.x |t.y|).bind fun i => some { f := 4, i := i, j := j }
    else
      if t.z < 0 then
        (grid_index (-t.x) |t.z|).bind fun i =>
        (grid_index (-t.y) |t.z|).bind fun j => some { f := 2, i := i, j := j }
      else
        (grid_index t.x |t.z|).bind fun i =>
        (grid_index (-t.y) |t.z|).bind fun j => some { f := 0, i := i, j := j }

/-- The function xyz_to_fij: vec3_normalize, then the branches. -/
def xyz_to_fij [FloorRing K] (sqrt : K → K) (p : vec3 K) : Option fij :=
  (vec3_normalize sqrt p).bind xyz_to_fij_cell

/-! ## Particle initialisation (lines 192-222) -/

/-- The C array read `a[n]`: a value only for an index inside the array. -/
def array_get {α : Type} (a : List α) (n : Int) : Option α :=
  if 0 ≤ n then a.get? n.toNat else none

/-- The table face_to_xdim_multiplier. -/
def face_to_xdim_multiplier (K : Type) [LinearOrderedField K] : List K :=
  [1 / 4, 1 / 2, 3 / 4, 0, 1 / 4, 1 / 4]

/-- The table face_to_ydim_multiplier. -/
def face_to_ydim_multiplier (K : Type) [LinearOrderedField K] : List K :=
  [1 / 3, 1 / 3, 1 / 3, 1 / 3, 0, 2 / 3]

/-- The pixel index `pn` that the body of init_particles computes for a cell
(lines 211-215), for a source image of the given width and height. -/
def init_particles_pn (K : Type) [LinearOrderedField K] [FloorRing K]
    (start_image_width start_image_height : Int) (a : fij) : Option Int :=
  let xo : K := (start_image_width : K) * (1 / 4) * (a.i : K) / ((DIM : Int) : K)
  let yo : K := (start_image_height : K) * (1 / 3) * (a.j : K) / ((DIM : Int) : K)
  (array_get (face_to_xdim_multiplier K) a.f).bind fun mx =>
  (array_get (face_to_ydim_multiplier K) a.f).bind fun my =>
  let x : K := (start_image_width : K) * mx + xo
  let y : K := (start_image_height : K) * my + yo
  some (float_to_int (y * (start_image_width : K) + x))

/-- One iteration of the loop of init_particles, for the point that
random_point_on_sphere returned; the image is its list of bytes. -/
def init_particle [FloorRing K] (sqrt : K → K) (start_image : List Nat)
    (start_image_width start_image_height : Int) (start_image_has_alpha : Bool)
    (pos : vec3 K) : Option (particle K) :=
  let bytes_per_pixel : Int := if start_image_has_alpha then 4 else 3
  (xyz_to_fij sqrt pos).bind fun a =>
  (init_particles_pn K start_image_width start_image_height a).bind fun pn =>
  (array_get start_image (pn * bytes_per_pixel)).bind fun p0 =>
  (array_get start_image (pn * bytes_per_pixel + 1)).bind fun p1 =>
  (array_get start_image (pn * bytes_per_pixel + 2)).bind fun p2 =>
  (if start_image_has_alpha then
      (array_get start_image (pn * bytes_per_pixel + 3)).bind fun p3 => some ((p3 : K) / 255)
    else some 1).bind fun alpha =>
  some { pos := pos,
         c := { r := (p0 : K) / 255, g := (p1 : K) / 255, b := (p2 : K) / 255, a := alpha } }

/-- The function init_particles, given the points random_point_on_sphere returns. -/
def init_particles [FloorRing K] (sqrt : K → K) (start_image : List Nat)
    (start_image_width start_image_height : Int) (start_image_has_alpha : Bool)
    (random_points : List (vec3 K)) : Option (List (particle K)) :=
  random_points.mapM
    (init_particle sqrt start_image start_image_width start_image_height start_image_has_alpha)

/-! ## Noise gradient and curl (lines 224-273)

`snoise4` (simplexnoise1234.h), `quat_from_u2v` and `quat_rot_vec` (quat.h) are not
part of the translated file: they are parameters. -/

/-- The function noise_gradient. -/
def noise_gradient (snoise4 : K → K → K → K → K) (position : vec3 K) (w noise_scale : K) :
    vec3 K :=
  let dx := noise_scale * (1 / ((DIM : Int) : K))
  let dy := noise_scale * (1 / ((DIM : Int) : K))
  let dz := noise_scale * (1 / ((DIM : Int) : K))
  { x := snoise4 (position.x + dx) position.y position.z w -
         snoise4 (position.x - dx) position.y position.z w,
    y := snoise4 position.x (position.y + dy) position.z w -
         snoise4 position.x (position.y - dy) position.z w,
    z := snoise4 position.x position.y (position.z + dz) w -
         snoise4 position.x position.y (position.z - dz) w }

/-- The function curl; `quat_from_u2v u v up` and `quat_rot_vec vi q` are the two
quaternion helpers it calls. -/
def curl (quat_from_u2v : vec3 K → vec3 K → vec3 K → quat K)
    (quat_rot_vec : vec3 K → quat K → vec3 K) (pos noise_gradient : vec3 K) : vec3 K :=
  let straight_up : vec3 K := { x := 0, y := 1, z := 0 }
  let rot := quat_from_u2v pos straight_up straight_up
  let rotated_ng := quat_rot_vec noise_gradient rot
  let rotated_ng := { rotated_ng with y := rotated_ng.z }
  let rotated_ng := { rotated_ng with z := rotated_ng.x }
  let rotated_ng := { rotated_ng with x := rotated_ng.y }
  let rotated_ng := { rotated_ng with y := 0 }
  let rot := { rot with x := -rot.x }
  let rot := { rot with y := -rot.y }
  let rot := { rot with z := -rot.z }
  quat_rot_vec rotated_ng rot

/-! ## Velocity field (lines 275-292) -/

/-- The write `vf->v[f][i][j] = x`. -/
def velocity_field.write (vf : velocity_field K) (f i j : Int) (x : vec3 K) :
    velocity_field K :=
  { v := fun f' i' j' => if f' = f ∧ i' = i ∧ j' = j then x else vf.v f' i' j' }

/-- The body of the innermost loop of update_velocity_field (lines 284-288). -/
def update_velocity_cell (sqrt : K → K) (snoise4 : K → K → K → K → K)
    (quat_from_u2v : vec3 K → vec3 K → vec3 K → quat K)
    (quat_rot_vec : vec3 K → quat K → vec3 K)
    (vf : velocity_field K) (noise_scale w : K) (f i j : Int) : Option (velocity_field K) :=
  (fij_to_xyz sqrt f i j).bind fun v =>
  let v := vec3_mul v noise_scale
  let ng := noise_gradient snoise4 v (w * noise_scale) noise_scale
  let c := curl quat_from_u2v quat_rot_vec v ng
  some (vf.write f i j (vec3_mul c (velocity_factor K)))

/-- The function update_velocity_field: the three nested loops over f, i, j. -/
def update_velocity_field (sqrt : K → K) (snoise4 : K → K → K → K → K)
    (quat_from_u2v : vec3 K → vec3 K → vec3 K → quat K)
    (quat_rot_vec : vec3 K → quat K → vec3 K)
    (vf : velocity_field K) (noise_scale w : K) : Option (velocity_field K) :=
  (List.range 6).foldlM (fun vf f =>
    (List.range XDIM.toNat).foldlM (fun vf i =>
      (List.range YDIM.toNat).foldlM (fun vf j =>
        update_velocity_cell sqrt snoise4 quat_from_u2v quat_rot_vec vf noise_scale w f i j)
        vf) vf) vf

/-- The rotation of a vector by a quaternion in matrix form: one function of the shape
curl expects for quat_rot_vec, used to exhibit a concrete instance of the curl theorem. -/
def quat_rotation (vi : vec3 K) (q : quat K) : vec3 K :=
  { x := (q.w * q.w + q.x * q.x - q.y * q.y - q.z * q.z) * vi.x +
         2 * ((q.x * q.y - q.w * q.z) * vi.y + (q.x * q.z + q.w * q.y) * vi.z),
    y := (q.w * q.w - q.x * q.x + q.y * q.y - q.z * q.z) * vi.y +
         2 * ((q.x * q.y + q.w * q.z) * vi.x + (q.y * q.z - q.w * q.x) * vi.z),
    z := (q.w * q.w - q.x * q.x - q.y * q.y + q.z * q.z) * vi.z +
         2 * ((q.x * q.z - q.w * q.y) * vi.x + (q.y * q.z + q.w * q.x) * vi.y) }

/-! ## Advection (lines 294-310) -/

/-- The read `vf->v[f][i][j]`: a value only for indices inside `v[6][XDIM][YDIM]`. -/
def velocity_field.read (vf : velocity_field K) (f i j : Int) : Option (vec3 K) :=
  if 0 ≤ f ∧ f < 6 ∧ 0 ≤ i ∧ i < XDIM ∧ 0 ≤ j ∧ j < YDIM then some (vf.v f i j) else none

/-- The function move_particle. -/
def move_particle [FloorRing K] (sqrt : K → K) (p : particle K) (vf : velocity_field K) :
    Option (particle K) :=
  (xyz_to_fij sqrt p.pos).bind fun a =>
  (vf.read a.f a.i a.j).bind fun v =>
  (vec3_normalize sqrt (vec3_add p.pos v)).bind fun n =>
  some { p with pos := vec3_mul n (((XDIM : Int) : K) / 2) }

/-- The function move_particles: move_particle on each particle in turn. -/
def move_particles [FloorRing K] (sqrt : K → K) (p : List (particle K))
    (vf : velocity_field K) : Option (List (particle K)) :=
  p.mapM fun q => move_particle sqrt q vf

end Defs

/-! ## Color blending: theorems -/

section Blend

variable {K : Type} [LinearOrderedField K]

/-- C3: blending an incoming color whose alpha is 1 onto any existing color returns
exactly the incoming color (same r, g, b, and alpha 1). -/
theorem combine_color_opaque (oc c : color K) (h : c.a = 1) :
    combine_color oc c = some c := by
  obtain ⟨r, g, b, a⟩ := c
  simp only at h
  subst h
  simp [combine_color, fdiv, alphablendcolor]

/-- Witness of C3 on a concrete pair of colors over the rationals. -/
theorem combine_color_opaque_witness :
    ((⟨1 / 2, 1 / 3, 1 / 4, 1⟩ : color ℚ).a = 1) ∧
      combine_color (⟨1 / 5, 2 / 5, 3 / 5, 1 / 2⟩ : color ℚ) ⟨1 / 2, 1 / 3, 1 / 4, 1⟩ =
        some ⟨1 / 2, 1 / 3, 1 / 4, 1⟩ :=
  ⟨rfl, combine_color_opaque _ _ rfl⟩

/-- C8: when the output alpha `c.a + oc.a * (1 - c.a)` is not zero, combine_color
returns that alpha and, in each of r, g, b, the alpha-over blend of the same-named
channels divided by it. -/
theorem combine_color_formula (oc c : color K) (h : c.a + oc.a * (1 - c.a) ≠ 0) :
    combine_color oc c = some
      { r := (c.r * c.a + oc.r * oc.a * (1 - c.a)) / (c.a + oc.a * (1 - c.a)),
        g := (c.g * c.a + oc.g * oc.a * (1 - c.a)) / (c.a + oc.a * (1 - c.a)),
        b := (c.b * c.a + oc.b * oc.a * (1 - c.a)) / (c.a + oc.a * (1 - c.a)),
        a := c.a + oc.a * (1 - c.a) } := by
  simp [combine_color, fdiv, alphablendcolor, h]

/-- Witness of C8: half-transparent over half-transparent, over the rationals. -/
theorem combine_color_formula_witness :
    ((1 / 2 : ℚ) + 1 / 2 * (1 - 1 / 2) ≠ 0) ∧
      combine_color (⟨1, 0, 0, 1 / 2⟩ : color ℚ) ⟨0, 1, 0, 1 / 2⟩ =
        some ⟨1 / 3, 2 / 3, 0, 3 / 4⟩ := by
  refine ⟨by norm_num, ?_⟩
  have h := combine_color_formula (⟨1, 0, 0, 1 / 2⟩ : color ℚ) ⟨0, 1, 0, 1 / 2⟩ (by norm_num)
  rw [h]
  norm_num

/-- C9 as stated fails: with both alphas 0 the output alpha is 0 and combine_color
divides by it, so it returns no color. -/
theorem combine_color_zero_alpha_undefined :
    ((0 : ℚ) + 0 * (1 - 0) = 0) ∧
      ¬ ∃ nc : color ℚ, combine_color (⟨0, 0, 0, 0⟩ : color ℚ) ⟨0, 0, 0, 0⟩ = some nc := by
  refine ⟨by norm_num, ?_⟩
  simp [combine_color, fdiv]

/-- C9 amended: whenever the output alpha `c.a + oc.a * (1 - c.a)` is 0, combine_color
performs the division by zero (there is no guard) and returns no color. -/
theorem combine_color_unguarded (oc c : color K) (h : c.a + oc.a * (1 - c.a) = 0) :
    combine_color oc c = none := by
  simp [combine_color, fdiv, h]

/-- Witness of the amended C9: a transparent red over a transparent grey. -/
theorem combine_color_unguarded_witness :
    ((0 : ℚ) + 0 * (1 - 0) = 0) ∧
      combine_color (⟨1 / 2, 1 / 2, 1 / 2, 0⟩ : color ℚ) ⟨1, 0, 0, 0⟩ = none :=
  ⟨by norm_num, combine_color_unguarded _ _ (by norm_num)⟩

end Blend

/-! ## Coordinate mapper: lemmas -/

section FieldLemmas
variable {K : Type} [LinearOrderedField K]

/-- A vector is not the zero vector exactly when one of its components is not zero. -/
theorem vec3_ne_zero_iff (t : vec3 K) :
    t ≠ { x := 0, y := 0, z := 0 } ↔ t.x ≠ 0 ∨ t.y ≠ 0 ∨ t.z ≠ 0 := by
  obtain ⟨x, y, z⟩ := t
  simp only [ne_eq, vec3.mk.injEq]
  tauto

/-- For i in [0, DIM) the offset `(i - XDIM / 2) / XDIM` is at most 1/2 in magnitude. -/
theorem grid_offset_abs (i : Int) (h0 : 0 ≤ i) (h1 : i < DIM) :
    |((i - XDIM / 2 : Int) : K) / ((XDIM : Int) : K)| ≤ 1 / 2 := by
  simp only [XDIM, DIM] at *
  have ha : (-512 : K) ≤ ((i - 1024 / 2 : Int) : K) := by
    have : (-512 : Int) ≤ i - 1024 / 2 := by omega
    exact_mod_cast this
  have hb : ((i - 1024 / 2 : Int) : K) ≤ 512 := by
    have : i - 1024 / 2 ≤ (512 : Int) := by omega
    exact_mod_cast this
  rw [abs_le]
  constructor
  · rw [le_div_iff₀ (by norm_num)]; push_cast at *; linarith
  · rw [div_le_iff₀ (by norm_num)]; push_cast at *; linarith

/-- The negated offset `-(i - XDIM / 2) / XDIM` is at most 1/2 in magnitude as well. -/
theorem grid_offset_abs_neg (i : Int) (h0 : 0 ≤ i) (h1 : i < DIM) :
    |-((i - XDIM / 2 : Int) : K) / ((XDIM : Int) : K)| ≤ 1 / 2 := by
  rw [neg_div, abs_neg]
  exact grid_offset_abs i h0 h1

/-- The fixed coordinate `(float) DIM / 2.0f` is 512. -/
theorem half_dim : ((DIM : Int) : K) / 2 = 512 := by
  simp only [DIM]; push_cast; norm_num

/-- The fixed coordinate `-(float) DIM / 2.0f` is -512. -/
theorem neg_half_dim : -((DIM : Int) : K) / 2 = -512 := by
  simp only [DIM]; push_cast; norm_num

end FieldLemmas

section Mapper
variable {K : Type} [LinearOrderedField K] [FloorRing K]

/-- When the divisor d is positive and |n| <= d, the grid index exists and is in [0, DIM). -/
theorem grid_index_range (n d : K) (hd : 0 < d) (hn : |n| ≤ d) :
    ∃ k : Int, grid_index n d = some k ∧ 0 ≤ k ∧ k < DIM := by
  have hq : |n / d| ≤ 1 := by
    rw [abs_div, abs_of_pos hd]
    exact (div_le_one hd).mpr hn
  obtain ⟨hq1, hq2⟩ := abs_le.mp hq
  have hv0 : (0 : K) ≤ n / d * FDIM K * (1 / 2) + (1 / 2) * FDIM K := by
    simp only [FDIM, DIM]; push_cast; nlinarith
  have hv1 : n / d * FDIM K * (1 / 2) + (1 / 2) * FDIM K < 1024 := by
    simp only [FDIM, DIM]; push_cast; nlinarith
  refine ⟨float_to_int (n / d * FDIM K * (1 / 2) + (1 / 2) * FDIM K), ?_, ?_, ?_⟩
  · simp only [grid_index, fdiv, hd.ne', if_false, Option.some_bind]
  · simp only [float_to_int, hv0, if_true]
    exact Int.floor_nonneg.mpr hv0
  · simp only [float_to_int, hv0, if_true, DIM]
    exact Int.floor_lt.mpr (by exact_mod_cast hv1)

/-- Dividing numerator and divisor by the same positive number does not change a grid index. -/
theorem grid_index_scale (n d c : K) (hc : 0 < c) :
    grid_index (n / c) (d / c) = grid_index n d := by
  by_cases hd : d = 0
  · simp [grid_index, fdiv, hd]
  · have : d / c ≠ 0 := div_ne_zero hd hc.ne'
    simp only [grid_index, fdiv, hd, this, if_false, Option.some_bind]
    rw [div_div_div_cancel_right₀ hc.ne']

/-- The branches of xyz_to_fij give the same cell for a vector and for that vector
divided by a positive number. -/
theorem xyz_to_fij_cell_scale (t : vec3 K) (c : K) (hc : 0 < c) :
    xyz_to_fij_cell { x := t.x / c, y := t.y / c, z := t.z / c } = xyz_to_fij_cell t := by
  have habs : ∀ a : K, |a / c| = |a| / c := fun a => by rw [abs_div, abs_of_pos hc]
  have hlt : ∀ a b : K, a / c < b / c ↔ a < b := fun a b => div_lt_div_iff_of_pos_right hc
  have hneg : ∀ a : K, a / c < 0 ↔ a < 0 := fun a => by
    rw [div_lt_iff₀ hc, zero_mul]
  have hn : ∀ a : K, -(a / c) = (-a) / c := fun a => by ring
  simp only [xyz_to_fij_cell, habs, gt_iff_lt, hlt, hneg, hn, grid_index_scale _ _ c hc]

/-- On a non-zero vector the branches of xyz_to_fij return a cell, its indices are in
[0, DIM), and its face follows the order of the comparisons. -/
theorem xyz_to_fij_cell_spec (t : vec3 K) (ht : t ≠ { x := 0, y := 0, z := 0 }) :
    ∃ a : fij, xyz_to_fij_cell t = some a ∧ (0 ≤ a.i ∧ a.i < DIM) ∧ (0 ≤ a.j ∧ a.j < DIM) ∧
      a.f = (if |t.x| > |t.y| ∧ |t.x| > |t.z| then (if t.x < 0 then 3 else 1)
             else if |t.x| ≤ |t.y| ∧ |t.y| > |t.z| then (if t.y < 0 then 5 else 4)
             else if t.z < 0 then 2 else 0) := by
  have hx0 := abs_nonneg t.x
  have hy0 := abs_nonneg t.y
  have hz0 := abs_nonneg t.z
  have hnx : |(-t.x)| = |t.x| := abs_neg _
  have hny : |(-t.y)| = |t.y| := abs_neg _
  have hnz : |(-t.z)| = |t.z| := abs_neg _
  by_cases h1 : |t.x| > |t.y|
  · by_cases h2 : |t.x| > |t.z|
    · have hd : 0 < |t.x| := lt_of_le_of_lt hy0 h1
      by_cases h3 : t.x < 0
      · obtain ⟨i, hi, hi0, hi1⟩ := grid_index_range t.z |t.x| hd h2.le
        obtain ⟨j, hj, hj0, hj1⟩ := grid_index_range (-t.y) |t.x| hd (hny ▸ h1.le)
        exact ⟨⟨3, i, j⟩, by simp [xyz_to_fij_cell, h1, h2, h3, hi, hj], ⟨hi0, hi1⟩, ⟨hj0, hj1⟩,
          by simp [h1, h2, h3]⟩
      · obtain ⟨i, hi, hi0, hi1⟩ := grid_index_range (-t.z) |t.x| hd (hnz ▸ h2.le)
        obtain ⟨j, hj, hj0, hj1⟩ := grid_index_range (-t.y) |t.x| hd (hny ▸ h1.le)
        exact ⟨⟨1, i, j⟩, by simp [xyz_to_fij_cell, h1, h2, h3, hi, hj], ⟨hi0, hi1⟩, ⟨hj0, hj1⟩,
          by simp [h1, h2, h3]⟩
    · have h2le : |t.x| ≤ |t.z| := not_lt.mp h2
      have hd : 0 < |t.z| := lt_of_lt_of_le (lt_of_le_of_lt hy0 h1) h2le
      have hyz : ¬ (|t.x| ≤ |t.y| ∧ |t.y| > |t.z|) := fun h => absurd h.1 (not_le.mpr h1)
      by_cases h3 : t.z < 0
      · obtain ⟨i, hi, hi0, hi1⟩ := grid_index_range (-t.x) |t.z| hd (hnx ▸ h2le)
        obtain ⟨j, hj, hj0, hj1⟩ := grid_index_range (-t.y) |t.z| hd (hny ▸ (h1.le.trans h2le))
        exact ⟨⟨2, i, j⟩, by simp [xyz_to_fij_cell, h1, h2, h3, hi, hj], ⟨hi0, hi1⟩, ⟨hj0, hj1⟩,
          by simp [h2, hyz, h3]⟩
      · obtain ⟨i, hi, hi0, hi1⟩ := grid_index_range t.x |t.z| hd h2le
        obtain ⟨j, hj, hj0, hj1⟩ := grid_index_range (-t.y) |t.z| hd (hny ▸ (h1.le.trans h2le))
        exact ⟨⟨0, i, j⟩, by simp [xyz_to_fij_cell, h1, h2, h3, hi, hj], ⟨hi0, hi1⟩, ⟨hj0, hj1⟩,
          by simp [h2, hyz, h3]⟩
  · have h1le : |t.x| ≤ |t.y| := not_lt.mp h1
    have hxz : ¬ (|t.x| > |t.y| ∧ |t.x| > |t.z|) := fun h => h1 h.1
    by_cases h2 : |t.y| > |t.z|
    · have hd : 0 < |t.y| := lt_of_le_of_lt hz0 h2
      by_cases h3 : t.y < 0
      · obtain ⟨j, hj, hj0, hj1⟩ := grid_index_range (-t.z) |t.y| hd (hnz ▸ h2.le)
        obtain ⟨i, hi, hi0, hi1⟩ := grid_index_range t.x |t.y| hd h1le
        exact ⟨⟨5, i, j⟩, by simp [xyz_to_fij_cell, h1, h2, h3, hi, hj], ⟨hi0, hi1⟩, ⟨hj0, hj1⟩,
          by simp [hxz, h1le, h2, h3]⟩
      · obtain ⟨j, hj, hj0, hj1⟩ := grid_index_range t.z |t.y| hd h2.le
        obtain ⟨i, hi, hi0, hi1⟩ := grid_index_range t.x |t.y| hd h1le
        exact ⟨⟨4, i, j⟩, by simp [xyz_to_fij_cell, h1, h2, h3, hi, hj], ⟨hi0, hi1⟩, ⟨hj0, hj1⟩,
          by simp [hxz, h1le, h2, h3]⟩
    · have h2le : |t.y| ≤ |t.z| := not_lt.mp h2
      have hd : 0 < |t.z| := by
        rcases (vec3_ne_zero_iff t).mp ht with h | h | h
        · exact lt_of_lt_of_le (abs_pos.mpr h) (h1le.trans h2le)
        · exact lt_of_lt_of_le (abs_pos.mpr h) h2le
        · exact abs_pos.mpr h
      have hyz : ¬ (|t.x| ≤ |t.y| ∧ |t.y| > |t.z|) := fun h => h2 h.2
      by_cases h3 : t.z < 0
      · obtain ⟨i, hi, hi0, hi1⟩ := grid_index_range (-t.x) |t.z| hd (hnx ▸ (h1le.trans h2le))
        obtain ⟨j, hj, hj0, hj1⟩ := grid_index_range (-t.y) |t.z| hd (hny ▸ h2le)
        exact ⟨⟨2, i, j⟩, by simp [xyz_to_fij_cell, h1, h2, h3, hi, hj], ⟨hi0, hi1⟩, ⟨hj0, hj1⟩,
          by simp [hxz, hyz, h3]⟩
      · obtain ⟨i, hi, hi0, hi1⟩ := grid_index_range t.x |t.z| hd (h1le.trans h2le)
        obtain ⟨j, hj, hj0, hj1⟩ := grid_index_range (-t.y) |t.z| hd (hny ▸ h2le)
        exact ⟨⟨0, i, j⟩, by simp [xyz_to_fij_cell, h1, h2, h3, hi, hj], ⟨hi0, hi1⟩, ⟨hj0, hj1⟩,
          by simp [hxz, hyz, h3]⟩

end Mapper

section RealMapper

/-- The magnitude of a non-zero real vector is positive. -/
theorem vec3_magnitude_pos (p : vec3 ℝ) (hp : p ≠ { x := 0, y := 0, z := 0 }) :
    0 < vec3_magnitude Real.sqrt p := by
  unfold vec3_magnitude
  apply Real.sqrt_pos.mpr
  rcases (vec3_ne_zero_iff p).mp hp with h | h | h
  · have := mul_self_pos.mpr h
    nlinarith [mul_self_nonneg p.y, mul_self_nonneg p.z]
  · have := mul_self_pos.mpr h
    nlinarith [mul_self_nonneg p.x, mul_self_nonneg p.z]
  · have := mul_self_pos.mpr h
    nlinarith [mul_self_nonneg p.x, mul_self_nonneg p.y]

/-- Normalizing a non-zero real vector divides each component by the magnitude. -/
theorem vec3_normalize_eq (p : vec3 ℝ) (hp : p ≠ { x := 0, y := 0, z := 0 }) :
    vec3_normalize Real.sqrt p =
      some { x := p.x / vec3_magnitude Real.sqrt p, y := p.y / vec3_magnitude Real.sqrt p,
             z := p.z / vec3_magnitude Real.sqrt p } := by
  have h := (vec3_magnitude_pos p hp).ne'
  simp [vec3_normalize, fdiv, h]

/-- The result of normalizing a non-zero real vector has magnitude 1. -/
theorem vec3_normalize_magnitude (p n : vec3 ℝ) (hp : p ≠ { x := 0, y := 0, z := 0 })
    (hn : vec3_normalize Real.sqrt p = some n) : vec3_magnitude Real.sqrt n = 1 := by
  rw [vec3_normalize_eq p hp] at hn
  have hm := vec3_magnitude_pos p hp
  injection hn with hn
  subst hn
  have hsq : vec3_magnitude Real.sqrt p * vec3_magnitude Real.sqrt p =
      p.x * p.x + p.y * p.y + p.z * p.z := by
    unfold vec3_magnitude
    apply Real.mul_self_sqrt
    nlinarith [mul_self_nonneg p.x, mul_self_nonneg p.y, mul_self_nonneg p.z]
  show Real.sqrt _ = 1
  rw [Real.sqrt_eq_one]
  field_simp
  linarith

/-- On a non-zero real vector the normalization inside xyz_to_fij does not change the
cell: xyz_to_fij is its branches applied to the vector itself. -/
theorem xyz_to_fij_eq_cell (p : vec3 ℝ) (hp : p ≠ { x := 0, y := 0, z := 0 }) :
    xyz_to_fij Real.sqrt p = xyz_to_fij_cell p := by
  unfold xyz_to_fij
  rw [vec3_normalize_eq p hp, Option.some_bind]
  exact xyz_to_fij_cell_scale p _ (vec3_magnitude_pos p hp)

end RealMapper

section Mid
variable {K : Type} [LinearOrderedField K] [FloorRing K]

/-- With divisor 512 and a numerator of magnitude at most 1/2 the grid index is 511. -/
theorem grid_index_mid (n : K) (hn : |n| ≤ 1 / 2) : grid_index n 512 = some 511 := by
  obtain ⟨h1, h2⟩ := abs_le.mp hn
  have h512 : (512 : K) ≠ 0 := by norm_num
  have hv0 : (511 : K) ≤ n / 512 * FDIM K * (1 / 2) + (1 / 2) * FDIM K := by
    simp only [FDIM, DIM]; push_cast; linarith
  have hv1 : n / 512 * FDIM K * (1 / 2) + (1 / 2) * FDIM K < 511 + 1 := by
    simp only [FDIM, DIM]; push_cast; linarith
  have hnn : (0 : K) ≤ n / 512 * FDIM K * (1 / 2) + (1 / 2) * FDIM K := by linarith
  simp only [grid_index, fdiv, h512, if_false, Option.some_bind, float_to_int, hnn, if_true,
    Option.some.injEq]
  exact Int.floor_eq_iff.mpr ⟨by exact_mod_cast hv0, by exact_mod_cast hv1⟩

/-- The same for the negated numerator. -/
theorem grid_index_mid_neg (n : K) (hn : |n| ≤ 1 / 2) : grid_index (-n) 512 = some 511 :=
  grid_index_mid (-n) (by rwa [abs_neg])

/-- A vector with z = 512 and x, y within 1/2 is in cell (0, 511, 511). -/
theorem xyz_to_fij_cell_face0 (x y : K) (hx : |x| ≤ 1 / 2) (hy : |y| ≤ 1 / 2) :
    xyz_to_fij_cell { x := x, y := y, z := 512 } = some { f := 0, i := 511, j := 511 } := by
  have h512 : |(512 : K)| = 512 := abs_of_pos (by norm_num)
  have hxz : ¬ |x| > (512 : K) := by linarith
  have hyz : ¬ |y| > (512 : K) := by linarith
  have hz : ¬ (512 : K) < 0 := by norm_num
  simp only [xyz_to_fij_cell, h512, hxz, hyz, hz, if_false, grid_index_mid x hx,
    grid_index_mid_neg y hy, Option.some_bind, ite_self]

/-- A vector with z = -512 and x, y within 1/2 is in cell (2, 511, 511). -/
theorem xyz_to_fij_cell_face2 (x y : K) (hx : |x| ≤ 1 / 2) (hy : |y| ≤ 1 / 2) :
    xyz_to_fij_cell { x := x, y := y, z := -512 } = some { f := 2, i := 511, j := 511 } := by
  have h512 : |(-512 : K)| = 512 := by rw [abs_neg]; exact abs_of_pos (by norm_num)
  have hxz : ¬ |x| > (512 : K) := by linarith
  have hyz : ¬ |y| > (512 : K) := by linarith
  have hz : (-512 : K) < 0 := by norm_num
  simp only [xyz_to_fij_cell, h512, hxz, hyz, hz, if_false, if_true, grid_index_mid_neg x hx,
    grid_index_mid_neg y hy, Option.some_bind, ite_self]

/-- A vector with x = 512 and y, z within 1/2 is in cell (1, 511, 511). -/
theorem xyz_to_fij_cell_face1 (y z : K) (hy : |y| ≤ 1 / 2) (hz : |z| ≤ 1 / 2) :
    xyz_to_fij_cell { x := 512, y := y, z := z } = some { f := 1, i := 511, j := 511 } := by
  have h512 : |(512 : K)| = 512 := abs_of_pos (by norm_num)
  have hxy : (512 : K) > |y| := by linarith
  have hxz : (512 : K) > |z| := by linarith
  have hx : ¬ (512 : K) < 0 := by norm_num
  simp only [xyz_to_fij_cell, h512, hxy, hxz, hx, if_false, if_true, grid_index_mid_neg z hz,
    grid_index_mid_neg y hy, Option.some_bind]

/-- A vector with x = -512 and y, z within 1/2 is in cell (3, 511, 511). -/
theorem xyz_to_fij_cell_face3 (y z : K) (hy : |y| ≤ 1 / 2) (hz : |z| ≤ 1 / 2) :
    xyz_to_fij_cell { x := -512, y := y, z := z } = some { f := 3, i := 511, j := 511 } := by
  have h512 : |(-512 : K)| = 512 := by rw [abs_neg]; exact abs_of_pos (by norm_num)
  have hxy : (512 : K) > |y| := by linarith
  have hxz : (512 : K) > |z| := by linarith
  have hx : (-512 : K) < 0 := by norm_num
  simp only [xyz_to_fij_cell, h512, hxy, hxz, hx, if_true, grid_index_mid z hz,
    grid_index_mid_neg y hy, Option.some_bind]

/-- A vector with y = 512 and x, z within 1/2 is in cell (4, 511, 511). -/
theorem xyz_to_fij_cell_face4 (x z : K) (hx : |x| ≤ 1 / 2) (hz : |z| ≤ 1 / 2) :
    xyz_to_fij_cell { x := x, y := 512, z := z } = some { f := 4, i := 511, j := 511 } := by
  have h512 : |(512 : K)| = 512 := abs_of_pos (by norm_num)
  have hxy : ¬ |x| > (512 : K) := by linarith
  have hyz : (512 : K) > |z| := by linarith
  have hy : ¬ (512 : K) < 0 := by norm_num
  simp only [xyz_to_fij_cell, h512, hxy, hyz, hy, if_false, if_true, grid_index_mid x hx,
    grid_index_mid z hz, Option.some_bind]

/-- A vector with y = -512 and x, z within 1/2 is in cell (5, 511, 511). -/
theorem xyz_to_fij_cell_face5 (x z : K) (hx : |x| ≤ 1 / 2) (hz : |z| ≤ 1 / 2) :
    xyz_to_fij_cell { x := x, y := -512, z := z } = some { f := 5, i := 511, j := 511 } := by
  have h512 : |(-512 : K)| = 512 := by rw [abs_neg]; exact abs_of_pos (by norm_num)
  have hxy : ¬ |x| > (512 : K) := by linarith
  have hyz : (512 : K) > |z| := by linarith
  have hy : (-512 : K) < 0 := by norm_num
  simp only [xyz_to_fij_cell, h512, hxy, hyz, hy, if_false, if_true, grid_index_mid x hx,
    grid_index_mid_neg z hz, Option.some_bind]

end Mid

section Round
variable {K : Type} [LinearOrderedField K] [FloorRing K]

/-- For a cell of the grid, the vector fij_to_xyz builds before normalizing exists, is
not zero, and the branches of xyz_to_fij send it to the centre cell of its face. -/
theorem fij_to_xyz_answer_cell (f i j : Int) (hf : 0 ≤ f ∧ f ≤ 5) (hi : 0 ≤ i ∧ i < DIM)
    (hj : 0 ≤ j ∧ j < DIM) :
    ∃ w : vec3 K, fij_to_xyz_answer f i j = some w ∧ w ≠ { x := 0, y := 0, z := 0 } ∧
      xyz_to_fij_cell w = some { f := f, i := 511, j := 511 } := by
  have hxi := grid_offset_abs (K := K) i hi.1 hi.2
  have hxj := grid_offset_abs (K := K) j hj.1 hj.2
  have hni := grid_offset_abs_neg (K := K) i hi.1 hi.2
  have hnj := grid_offset_abs_neg (K := K) j hj.1 hj.2
  have h512 : (512 : K) ≠ 0 := by norm_num
  have hn512 : (-512 : K) ≠ 0 := by norm_num
  obtain ⟨hf0, hf5⟩ := hf
  obtain rfl | rfl | rfl | rfl | rfl | rfl : f = 0 ∨ f = 1 ∨ f = 2 ∨ f = 3 ∨ f = 4 ∨ f = 5 := by
    omega
  · refine ⟨_, rfl, ?_, ?_⟩
    · rw [vec3_ne_zero_iff]; right; right; show ((DIM : Int) : K) / 2 ≠ 0; rw [half_dim]; exact h512
    · rw [half_dim]; exact xyz_to_fij_cell_face0 _ _ hxi hnj
  · refine ⟨_, rfl, ?_, ?_⟩
    · rw [vec3_ne_zero_iff]; left; show ((DIM : Int) : K) / 2 ≠ 0; rw [half_dim]; exact h512
    · rw [half_dim]; exact xyz_to_fij_cell_face1 _ _ hnj hni
  · refine ⟨_, rfl, ?_, ?_⟩
    · rw [vec3_ne_zero_iff]; right; right; show -((DIM : Int) : K) / 2 ≠ 0; rw [neg_half_dim]; exact hn512
    · rw [neg_half_dim]; exact xyz_to_fij_cell_face2 _ _ hni hnj
  · refine ⟨_, rfl, ?_, ?_⟩
    · rw [vec3_ne_zero_iff]; left; show -((DIM : Int) : K) / 2 ≠ 0; rw [neg_half_dim]; exact hn512
    · rw [neg_half_dim]; exact xyz_to_fij_cell_face3 _ _ hnj hxi
  · refine ⟨_, rfl, ?_, ?_⟩
    · rw [vec3_ne_zero_iff]; right; left; show ((YDIM : Int) : K) / 2 ≠ 0; rw [YDIM, half_dim]; exact h512
    · rw [YDIM, half_dim]; exact xyz_to_fij_cell_face4 _ _ hxi hxj
  · refine ⟨_, rfl, ?_, ?_⟩
    · rw [vec3_ne_zero_iff]; right; left; show -((YDIM : Int) : K) / 2 ≠ 0; rw [YDIM, neg_half_dim]; exact hn512
    · rw [YDIM, neg_half_dim]; exact xyz_to_fij_cell_face5 _ _ hxi hnj

end Round

section RealRound

/-- Normalizing a non-zero real vector and then applying xyz_to_fij gives the cell of
the vector itself. -/
theorem normalize_then_xyz_to_fij (w : vec3 ℝ) (hw : w ≠ { x := 0, y := 0, z := 0 }) :
    (vec3_normalize Real.sqrt w).bind (xyz_to_fij Real.sqrt) = xyz_to_fij_cell w := by
  have hm := vec3_magnitude_pos w hw
  have hn : (⟨w.x / vec3_magnitude Real.sqrt w, w.y / vec3_magnitude Real.sqrt w,
      w.z / vec3_magnitude Real.sqrt w⟩ : vec3 ℝ) ≠ { x := 0, y := 0, z := 0 } := by
    rw [vec3_ne_zero_iff]
    rcases (vec3_ne_zero_iff w).mp hw with h | h | h
    · exact Or.inl (div_ne_zero h hm.ne')
    · exact Or.inr (Or.inl (div_ne_zero h hm.ne'))
    · exact Or.inr (Or.inr (div_ne_zero h hm.ne'))
  rw [vec3_normalize_eq w hw, Option.some_bind, xyz_to_fij_eq_cell _ hn]
  exact xyz_to_fij_cell_scale w _ hm

/-- For every cell of the grid, xyz_to_fij after fij_to_xyz returns the centre cell
(f, 511, 511) of the same face. -/
theorem roundtrip_cell (f i j : Int) (hf : 0 ≤ f ∧ f ≤ 5) (hi : 0 ≤ i ∧ i < DIM)
    (hj : 0 ≤ j ∧ j < DIM) :
    (fij_to_xyz Real.sqrt f i j).bind (xyz_to_fij Real.sqrt) =
      some { f := f, i := 511, j := 511 } := by
  obtain ⟨w, hw, hw0, hc⟩ := fij_to_xyz_answer_cell (K := ℝ) f i j hf hi hj
  unfold fij_to_xyz
  rw [hw, Option.some_bind, normalize_then_xyz_to_fij w hw0, hc]

/-- For a non-zero vector, xyz_to_fij returns a cell inside `v[6][XDIM][YDIM]`. -/
theorem xyz_to_fij_in_bounds_aux (p : vec3 ℝ) (hp : p ≠ { x := 0, y := 0, z := 0 }) :
    ∃ a : fij, xyz_to_fij Real.sqrt p = some a ∧
      (0 ≤ a.f ∧ a.f ≤ 5) ∧ (0 ≤ a.i ∧ a.i < DIM) ∧ (0 ≤ a.j ∧ a.j < DIM) ∧
      ∀ vf : velocity_field ℝ, vf.read a.f a.i a.j = some (vf.v a.f a.i a.j) := by
  obtain ⟨a, ha, hi, hj, hf⟩ := xyz_to_fij_cell_spec p hp
  have hf' : 0 ≤ a.f ∧ a.f ≤ 5 := by
    rw [hf]
    split_ifs <;> constructor <;> norm_num
  refine ⟨a, by rw [xyz_to_fij_eq_cell p hp, ha], hf', hi, hj, fun vf => ?_⟩
  have hf6 : a.f < 6 := by omega
  simp only [velocity_field.read, XDIM, YDIM, hf'.1, hf6, hi.1, hi.2, hj.1, hj.2, and_self,
    if_true]

end RealRound


/-! ## Coordinate mapper: theorems -/

section MapperClaims

/-- C1: the round trip does not return the cell it started from.  Cell (0, 1, 1) is an
interior cell of face 0, and xyz_to_fij of fij_to_xyz 0 1 1 is (0, 511, 511): the
forward mapping puts the fixed coordinate at DIM / 2 = 512 while the two varying
ones stay within 1/2, so every cell of a face lands on the cell at its centre. -/
theorem roundtrip_cell_0_1_1 :
    ((0 : Int) < 1 ∧ (1 : Int) < DIM - 1) ∧
      (fij_to_xyz Real.sqrt 0 1 1).bind (xyz_to_fij Real.sqrt) =
        some { f := 0, i := 511, j := 511 } ∧
      ({ f := 0, i := 511, j := 511 } : fij) ≠ { f := 0, i := 1, j := 1 } :=
  ⟨by decide, roundtrip_cell 0 1 1 (by decide) (by decide) (by decide), by decide⟩

/-- C2: for every non-zero vector p, xyz_to_fij returns a cell whose face is in 0..5
and whose indices i and j are in [0, DIM), so the read of the velocity field at that
cell is inside the table. -/
theorem xyz_to_fij_in_bounds (p : vec3 ℝ) (hp : p ≠ { x := 0, y := 0, z := 0 }) :
    ∃ a : fij, xyz_to_fij Real.sqrt p = some a ∧
      (0 ≤ a.f ∧ a.f ≤ 5) ∧ (0 ≤ a.i ∧ a.i < DIM) ∧ (0 ≤ a.j ∧ a.j < DIM) ∧
      ∀ vf : velocity_field ℝ, vf.read a.f a.i a.j = some (vf.v a.f a.i a.j) :=
  xyz_to_fij_in_bounds_aux p hp

/-- Witness of C2 at the vector (1, -2, 2). -/
theorem xyz_to_fij_in_bounds_witness :
    ((⟨1, -2, 2⟩ : vec3 ℝ) ≠ { x := 0, y := 0, z := 0 }) ∧
      ∃ a : fij, xyz_to_fij Real.sqrt (⟨1, -2, 2⟩ : vec3 ℝ) = some a ∧
        (0 ≤ a.f ∧ a.f ≤ 5) ∧ (0 ≤ a.i ∧ a.i < DIM) ∧ (0 ≤ a.j ∧ a.j < DIM) ∧
        ∀ vf : velocity_field ℝ, vf.read a.f a.i a.j = some (vf.v a.f a.i a.j) :=
  ⟨by simp, xyz_to_fij_in_bounds _ (by simp)⟩

/-- C5: for every non-zero p = (x, y, z), the face xyz_to_fij returns is 3 or 1
(3 if x < 0) when |x| > |y| and |x| > |z|; otherwise 5 or 4 (5 if y < 0) when
|x| <= |y| and |y| > |z|; otherwise 2 or 0 (2 if z < 0).  The three cases exclude
one another and give different faces, so each holds exactly when its condition does. -/
theorem xyz_to_fij_face (p : vec3 ℝ) (hp : p ≠ { x := 0, y := 0, z := 0 }) :
    ∃ a : fij, xyz_to_fij Real.sqrt p = some a ∧
      a.f = (if |p.x| > |p.y| ∧ |p.x| > |p.z| then (if p.x < 0 then 3 else 1)
             else if |p.x| ≤ |p.y| ∧ |p.y| > |p.z| then (if p.y < 0 then 5 else 4)
             else if p.z < 0 then 2 else 0) := by
  obtain ⟨a, ha, -, -, hf⟩ := xyz_to_fij_cell_spec p hp
  exact ⟨a, by rw [xyz_to_fij_eq_cell p hp, ha], hf⟩

/-- Witness of C5 at the vector (1, -2, 2), a tie between |y| and |z|: face 0. -/
theorem xyz_to_fij_face_witness :
    ((⟨1, -2, 2⟩ : vec3 ℝ) ≠ { x := 0, y := 0, z := 0 }) ∧
      ∃ a : fij, xyz_to_fij Real.sqrt (⟨1, -2, 2⟩ : vec3 ℝ) = some a ∧ a.f = 0 := by
  refine ⟨by simp, ?_⟩
  obtain ⟨a, ha, hf⟩ := xyz_to_fij_face (⟨1, -2, 2⟩ : vec3 ℝ) (by simp)
  refine ⟨a, ha, ?_⟩
  rw [hf]
  norm_num [abs_of_pos]

/-- C6: for every face f in 0..5 and all i, j in [0, DIM), fij_to_xyz returns a
vector, and its Euclidean magnitude is exactly 1. -/
theorem fij_to_xyz_unit (f i j : Int) (hf : 0 ≤ f ∧ f ≤ 5) (hi : 0 ≤ i ∧ i < DIM)
    (hj : 0 ≤ j ∧ j < DIM) :
    ∃ v : vec3 ℝ, fij_to_xyz Real.sqrt f i j = some v ∧ vec3_magnitude Real.sqrt v = 1 := by
  obtain ⟨w, hw, hw0, -⟩ := fij_to_xyz_answer_cell (K := ℝ) f i j hf hi hj
  refine ⟨_, ?_, vec3_normalize_magnitude w _ hw0 (vec3_normalize_eq w hw0)⟩
  unfold fij_to_xyz
  rw [hw, Option.some_bind, vec3_normalize_eq w hw0]

/-- Witness of C6 at the cell (4, 0, 1023). -/
theorem fij_to_xyz_unit_witness :
    ((0 : Int) ≤ 4 ∧ (4 : Int) ≤ 5) ∧ ((0 : Int) ≤ 0 ∧ (0 : Int) < DIM) ∧
      ((0 : Int) ≤ 1023 ∧ (1023 : Int) < DIM) ∧
      ∃ v : vec3 ℝ, fij_to_xyz Real.sqrt 4 0 1023 = some v ∧ vec3_magnitude Real.sqrt v = 1 :=
  ⟨by decide, by decide, by decide, fij_to_xyz_unit 4 0 1023 (by decide) (by decide) (by decide)⟩

end MapperClaims

/-! ## Advection: theorems -/

section Advection

end Advection

/-! ## Curl: theorems -/

section Curl

variable {K : Type} [LinearOrderedField K]

/-- C4: curl pos g is orthogonal to pos, given that the quaternion `rot` returned by
quat_from_u2v for pos and straight-up is a rotation under quat_rot_vec (it preserves
dot products), that this rotation carries pos to a positive multiple of straight-up
(0, 1, 0), and that the quaternion with x, y, z negated gives the inverse rotation. -/
theorem curl_tangent (quat_from_u2v : vec3 K → vec3 K → vec3 K → quat K)
    (quat_rot_vec : vec3 K → quat K → vec3 K) (pos g : vec3 K)
    (hrot : ∀ u v : vec3 K,
      vec3_dot (quat_rot_vec u (quat_from_u2v pos ⟨0, 1, 0⟩ ⟨0, 1, 0⟩))
        (quat_rot_vec v (quat_from_u2v pos ⟨0, 1, 0⟩ ⟨0, 1, 0⟩)) = vec3_dot u v)
    (hup : ∃ c : K, 0 < c ∧
      quat_rot_vec pos (quat_from_u2v pos ⟨0, 1, 0⟩ ⟨0, 1, 0⟩) = ⟨0, c, 0⟩)
    (hinv : ∀ v : vec3 K,
      quat_rot_vec
        (quat_rot_vec v ⟨(quat_from_u2v pos ⟨0, 1, 0⟩ ⟨0, 1, 0⟩).w,
          -(quat_from_u2v pos ⟨0, 1, 0⟩ ⟨0, 1, 0⟩).x,
          -(quat_from_u2v pos ⟨0, 1, 0⟩ ⟨0, 1, 0⟩).y,
          -(quat_from_u2v pos ⟨0, 1, 0⟩ ⟨0, 1, 0⟩).z⟩)
        (quat_from_u2v pos ⟨0, 1, 0⟩ ⟨0, 1, 0⟩) = v) :
    vec3_dot (curl quat_from_u2v quat_rot_vec pos g) pos = 0 := by
  obtain ⟨c, -, hc⟩ := hup
  rw [← hrot, hc]
  show vec3_dot (quat_rot_vec (quat_rot_vec _ _) _) _ = 0
  rw [hinv]
  simp [vec3_dot]

/-- Witness of C4 over the rationals: pos = (2, 0, 0), g = (1, 2, 3), the quaternion
(1/2, 1/2, 1/2, 1/2), which turns the x axis onto the y axis, and quat_rotation. -/
theorem curl_tangent_witness :
    (∀ u v : vec3 ℚ, vec3_dot (quat_rotation u ⟨1 / 2, 1 / 2, 1 / 2, 1 / 2⟩)
        (quat_rotation v ⟨1 / 2, 1 / 2, 1 / 2, 1 / 2⟩) = vec3_dot u v) ∧
      (∃ c : ℚ, 0 < c ∧
        quat_rotation (⟨2, 0, 0⟩ : vec3 ℚ) ⟨1 / 2, 1 / 2, 1 / 2, 1 / 2⟩ = ⟨0, c, 0⟩) ∧
      (∀ v : vec3 ℚ, quat_rotation (quat_rotation v ⟨1 / 2, -(1 / 2), -(1 / 2), -(1 / 2)⟩)
        ⟨1 / 2, 1 / 2, 1 / 2, 1 / 2⟩ = v) ∧
      vec3_dot (curl (fun _ _ _ => (⟨1 / 2, 1 / 2, 1 / 2, 1 / 2⟩ : quat ℚ)) quat_rotation
        ⟨2, 0, 0⟩ ⟨1, 2, 3⟩) ⟨2, 0, 0⟩ = 0 := by
  have h1 : ∀ u v : vec3 ℚ, vec3_dot (quat_rotation u ⟨1 / 2, 1 / 2, 1 / 2, 1 / 2⟩)
      (quat_rotation v ⟨1 / 2, 1 / 2, 1 / 2, 1 / 2⟩) = vec3_dot u v := by
    intro u v
    simp only [quat_rotation, vec3_dot]
    ring
  have h2 : ∃ c : ℚ, 0 < c ∧
      quat_rotation (⟨2, 0, 0⟩ : vec3 ℚ) ⟨1 / 2, 1 / 2, 1 / 2, 1 / 2⟩ = ⟨0, c, 0⟩ :=
    ⟨2, by norm_num, by simp only [quat_rotation]; norm_num⟩
  have h3 : ∀ v : vec3 ℚ,
      quat_rotation (quat_rotation v ⟨1 / 2, -(1 / 2), -(1 / 2), -(1 / 2)⟩)
        ⟨1 / 2, 1 / 2, 1 / 2, 1 / 2⟩ = v := by
    intro v
    obtain ⟨x, y, z⟩ := v
    simp only [quat_rotation, vec3.mk.injEq]
    refine ⟨?_, ?_, ?_⟩ <;> ring
  exact ⟨h1, h2, h3,
    curl_tangent (fun _ _ _ => (⟨1 / 2, 1 / 2, 1 / 2, 1 / 2⟩ : quat ℚ)) quat_rotation
      ⟨2, 0, 0⟩ ⟨1, 2, 3⟩ h1 h2 h3⟩

end Curl

/-! ## Particle initialisation: theorems -/

section Init

/-- C10 (code defect): the pixel index leaves the face's rectangle, and the image.
On a 4 x 3 image (k = 1), cell (0, 0, 256) gives pn = 6, column 6 mod 4 = 2, while face
0 owns column 1 only; cell (5, 0, 768) gives pn = 12 = 4 * 3, one past the last pixel.
On a 2048 x 1536 image (k = 512), cell (0, 0, 1) gives pn = 1050112, column 1536, while
face 0 owns columns 512 to 1023.  The row `y` is multiplied by the width without being
truncated first, so its fractional part spills into the column. -/
theorem init_particles_pn_escapes :
    init_particles_pn ℚ 4 3 { f := 0, i := 0, j := 256 } = some 6 ∧ (6 : Int) % 4 = 2 ∧
      init_particles_pn ℚ 4 3 { f := 5, i := 0, j := 768 } = some 12 ∧ (12 : Int) = 4 * 3 ∧
      init_particles_pn ℚ 2048 1536 { f := 0, i := 0, j := 1 } = some 1050112 ∧
      (1050112 : Int) % 2048 = 1536 := by
  refine ⟨?_, by decide, ?_, by decide, ?_, by decide⟩
  · simp [init_particles_pn, array_get, face_to_xdim_multiplier, face_to_ydim_multiplier,
      float_to_int, DIM]
    norm_num
  · simp [init_particles_pn, array_get, face_to_xdim_multiplier, face_to_ydim_multiplier,
      float_to_int, DIM]
    norm_num
  · simp [init_particles_pn, array_get, face_to_xdim_multiplier, face_to_ydim_multiplier,
      float_to_int, DIM]
    norm_num

end Init

/-! ## Velocity field: theorems -/

section Loops

variable {K : Type}

/-- A loop over 0 .. n-1 whose step k overwrites exactly the cells selected by `Q k`
with their value `val` ends with every selected cell holding `val` and every other
cell as it was at the start. -/
theorem range_loop_writes (val : Int → Int → Int → vec3 K)
    (step : velocity_field K → Nat → Option (velocity_field K))
    (Q : Nat → Int → Int → Int → Prop) (n : Nat)
    (hstep : ∀ (vf : velocity_field K) (k : Nat), k < n →
      ∃ vf', step vf k = some vf' ∧ ∀ f i j,
        (Q k f i j → vf'.v f i j = val f i j) ∧ (¬ Q k f i j → vf'.v f i j = vf.v f i j))
    (vf : velocity_field K) :
    ∃ vf', (List.range n).foldlM step vf = some vf' ∧ ∀ f i j,
      ((∃ k, k < n ∧ Q k f i j) → vf'.v f i j = val f i j) ∧
      ((¬ ∃ k, k < n ∧ Q k f i j) → vf'.v f i j = vf.v f i j) := by
  induction n with
  | zero =>
    refine ⟨vf, rfl, fun f i j => ⟨?_, fun _ => rfl⟩⟩
    rintro ⟨k, hk, -⟩
    exact absurd hk (Nat.not_lt_zero k)
  | succ n ih =>
    obtain ⟨vf1, h1, hv1⟩ := ih (fun vf k hk => hstep vf k (Nat.lt_succ_of_lt hk))
    obtain ⟨vf2, h2, hv2⟩ := hstep vf1 n (Nat.lt_succ_self n)
    refine ⟨vf2, ?_, fun f i j => ?_⟩
    · rw [List.range_succ, List.foldlM_append, h1]
      simp [h2]
    · by_cases hq : Q n f i j
      · refine ⟨fun _ => (hv2 f i j).1 hq, fun hne => ?_⟩
        exact absurd ⟨n, Nat.lt_succ_self n, hq⟩ hne
      · rw [(hv2 f i j).2 hq]
        constructor
        · rintro ⟨k, hk, hqk⟩
          have hkn : k < n := by
            rcases Nat.lt_succ_iff_lt_or_eq.mp hk with h | h
            · exact h
            · subst h; exact absurd hqk hq
          exact (hv1 f i j).1 ⟨k, hkn, hqk⟩
        · intro hne
          exact (hv1 f i j).2 (fun ⟨k, hk, hqk⟩ => hne ⟨k, Nat.lt_succ_of_lt hk, hqk⟩)

/-- A loop over the integer casts of a list of naturals is the loop over the naturals
with the cast moved into the step. -/
theorem foldlM_cast {S : Type} (step : S → Int → Option S) (l : List Nat) (s : S) :
    (l >>= fun a => pure (a : Int)).foldlM step s = l.foldlM (fun s (a : Nat) => step s a) s := by
  induction l generalizing s with
  | nil => rfl
  | cons a l ih =>
    have h : ((a :: l) >>= fun a => pure (a : Int)) =
        (a : Int) :: (l >>= fun a => pure (a : Int)) := by
      simp
    rw [h, List.foldlM_cons, List.foldlM_cons]
    cases step s a with
    | none => rfl
    | some s' => exact ih s'

end Loops

section FieldBuild

/-- For every cell of the grid fij_to_xyz returns a vector (over the reals). -/
theorem fij_to_xyz_some (f i j : Int) (hf : 0 ≤ f ∧ f ≤ 5) (hi : 0 ≤ i ∧ i < DIM)
    (hj : 0 ≤ j ∧ j < DIM) : ∃ P : vec3 ℝ, fij_to_xyz Real.sqrt f i j = some P := by
  obtain ⟨w, hw, hw0, -⟩ := fij_to_xyz_answer_cell (K := ℝ) f i j hf hi hj
  unfold fij_to_xyz
  rw [hw, Option.some_bind, vec3_normalize_eq w hw0]
  exact ⟨_, rfl⟩

/-- After update_velocity_field every cell of the grid holds velocity_factor times the
curl at the scaled point P of the gradient sampled at P with phase `w * noise_scale`. -/
theorem update_velocity_field_entries (snoise4 : ℝ → ℝ → ℝ → ℝ → ℝ)
    (quat_from_u2v : vec3 ℝ → vec3 ℝ → vec3 ℝ → quat ℝ)
    (quat_rot_vec : vec3 ℝ → quat ℝ → vec3 ℝ) (vf : velocity_field ℝ) (noise_scale w : ℝ) :
    ∃ vf', update_velocity_field Real.sqrt snoise4 quat_from_u2v quat_rot_vec vf noise_scale w =
        some vf' ∧
      ∀ f i j : Int, 0 ≤ f ∧ f ≤ 5 → 0 ≤ i ∧ i < DIM → 0 ≤ j ∧ j < DIM →
        ∃ P : vec3 ℝ, fij_to_xyz Real.sqrt f i j = some P ∧
          vf'.v f i j = vec3_mul (curl quat_from_u2v quat_rot_vec (vec3_mul P noise_scale)
            (noise_gradient snoise4 (vec3_mul P noise_scale) (w * noise_scale) noise_scale))
            (velocity_factor ℝ) := by
  have hX : XDIM.toNat = 1024 := rfl
  have hY : YDIM.toNat = 1024 := rfl
  -- the value written to a cell
  let val : Int → Int → Int → vec3 ℝ := fun f i j =>
    (fij_to_xyz Real.sqrt f i j).elim ⟨0, 0, 0⟩ (fun P =>
      vec3_mul (curl quat_from_u2v quat_rot_vec (vec3_mul P noise_scale)
        (noise_gradient snoise4 (vec3_mul P noise_scale) (w * noise_scale) noise_scale))
        (velocity_factor ℝ))
  have hcell : ∀ (vf : velocity_field ℝ) (f i j : Nat), f < 6 → i < 1024 → j < 1024 →
      update_velocity_cell Real.sqrt snoise4 quat_from_u2v quat_rot_vec vf noise_scale w f i j =
        some (vf.write f i j (val f i j)) := by
    intro vf f i j hf hi hj
    obtain ⟨P, hP⟩ := fij_to_xyz_some (f : Int) i j ⟨by omega, by omega⟩
      ⟨by omega, by simp only [DIM]; omega⟩ ⟨by omega, by simp only [DIM]; omega⟩
    simp only [update_velocity_cell, hP, Option.some_bind, val, Option.elim]
  -- the loop over j
  have hj : ∀ (vf : velocity_field ℝ) (f i : Nat), f < 6 → i < 1024 →
      ∃ vf', (List.range YDIM.toNat).foldlM (fun vf (j : Nat) =>
          update_velocity_cell Real.sqrt snoise4 quat_from_u2v quat_rot_vec vf noise_scale w
            f i j) vf = some vf' ∧
        ∀ f' i' j',
          ((∃ k : Nat, k < 1024 ∧ f' = (f : Int) ∧ i' = (i : Int) ∧ j' = (k : Int)) →
            vf'.v f' i' j' = val f' i' j') ∧
          ((¬ ∃ k : Nat, k < 1024 ∧ f' = (f : Int) ∧ i' = (i : Int) ∧ j' = (k : Int)) →
            vf'.v f' i' j' = vf.v f' i' j') := by
    intro vf f i hf hi
    rw [hY]
    refine range_loop_writes val _ (fun k f' i' j' => f' = (f : Int) ∧ i' = (i : Int) ∧
      j' = (k : Int)) 1024 ?_ vf
    intro vf k hk
    refine ⟨_, hcell vf f i k hf hi hk, fun f' i' j' => ⟨?_, ?_⟩⟩
    · rintro ⟨rfl, rfl, rfl⟩
      simp [velocity_field.write]
    · intro hne
      simp only [velocity_field.write, hne, if_false]
  -- the loop over i
  have hi : ∀ (vf : velocity_field ℝ) (f : Nat), f < 6 →
      ∃ vf', (List.range XDIM.toNat).foldlM (fun vf (i : Nat) =>
          (List.range YDIM.toNat).foldlM (fun vf (j : Nat) =>
            update_velocity_cell Real.sqrt snoise4 quat_from_u2v quat_rot_vec vf noise_scale w
              f i j) vf) vf = some vf' ∧
        ∀ f' i' j',
          ((∃ k : Nat, k < 1024 ∧ ∃ kj : Nat, kj < 1024 ∧ f' = (f : Int) ∧ i' = (k : Int) ∧
              j' = (kj : Int)) → vf'.v f' i' j' = val f' i' j') ∧
          ((¬ ∃ k : Nat, k < 1024 ∧ ∃ kj : Nat, kj < 1024 ∧ f' = (f : Int) ∧ i' = (k : Int) ∧
              j' = (kj : Int)) → vf'.v f' i' j' = vf.v f' i' j') := by
    intro vf f hf
    rw [hX]
    refine range_loop_writes val _ (fun k f' i' j' => ∃ kj : Nat, kj < 1024 ∧ f' = (f : Int) ∧
      i' = (k : Int) ∧ j' = (kj : Int)) 1024 ?_ vf
    intro vf k hk
    exact hj vf f k hf hk
  -- the loop over f
  obtain ⟨vf', hvf', hall⟩ := range_loop_writes val
    (fun vf (f : Nat) =>
      (List.range XDIM.toNat).foldlM (fun vf (i : Nat) =>
          (List.range YDIM.toNat).foldlM (fun vf (j : Nat) =>
            update_velocity_cell Real.sqrt snoise4 quat_from_u2v quat_rot_vec vf noise_scale w
              f i j) vf) vf)
    (fun k f' i' j' => ∃ ki : Nat, ki < 1024 ∧ ∃ kj : Nat, kj < 1024 ∧ f' = (k : Int) ∧
      i' = (ki : Int) ∧ j' = (kj : Int)) 6 (fun vf k hk => hi vf k hk) vf
  have hres : update_velocity_field Real.sqrt snoise4 quat_from_u2v quat_rot_vec vf noise_scale w =
      some vf' := by
    unfold update_velocity_field
    rw [foldlM_cast]
    simp only [foldlM_cast]
    exact hvf'
  refine ⟨vf', hres, fun f i j hf hi hj => ?_⟩
  obtain ⟨P, hP⟩ := fij_to_xyz_some f i j hf hi hj
  refine ⟨P, hP, ?_⟩
  simp only [DIM] at hi hj
  have hw := (hall f i j).1 ⟨f.toNat, by omega, i.toNat, by omega, j.toNat, by omega,
    by omega, by omega, by omega⟩
  rw [hw]
  simp only [val, hP, Option.elim]

/-- C11 as stated fails: with noise `x * w`, the identity rotation, scale 2 and phase 1,
the entry of cell (0, 0, 0) after update_velocity_field is not velocity_factor times the
curl of the gradient sampled with phase 1: the code samples with phase 1 * 2. -/
theorem update_velocity_field_phase_not_w :
    ∃ (vf' : velocity_field ℝ) (P : vec3 ℝ),
      update_velocity_field Real.sqrt (fun x _ _ w => x * w) (fun _ _ _ => ⟨1, 0, 0, 0⟩)
        quat_rotation ⟨fun _ _ _ => ⟨0, 0, 0⟩⟩ 2 1 = some vf' ∧
      fij_to_xyz Real.sqrt 0 0 0 = some P ∧
      vf'.v 0 0 0 ≠ vec3_mul (curl (fun _ _ _ => ⟨1, 0, 0, 0⟩) quat_rotation (vec3_mul P 2)
        (noise_gradient (fun x _ _ w => x * w) (vec3_mul P 2) 1 2)) (velocity_factor ℝ) := by
  obtain ⟨vf', hvf', hall⟩ := update_velocity_field_entries (fun x _ _ w => x * w)
    (fun _ _ _ => ⟨1, 0, 0, 0⟩) quat_rotation ⟨fun _ _ _ => ⟨0, 0, 0⟩⟩ 2 1
  obtain ⟨P, hP, hv⟩ := hall 0 0 0 (by decide) (by decide) (by decide)
  refine ⟨vf', P, hvf', hP, ?_⟩
  rw [hv]
  intro h
  have hz := congrArg vec3.z h
  simp only [vec3_mul, curl, quat_rotation, noise_gradient, velocity_factor, DIM] at hz
  norm_num at hz
  linarith

/-- C11 amended: for every scale s, phase w and cell (f, i, j) of the grid,
update_velocity_field returns a field whose entry at the cell is velocity_factor times
curl (P, noise_gradient (P, w * s, s)) with P = s * fij_to_xyz (f, i, j): the gradient is
sampled at the scaled point with the phase scaled by s as well.  No cell is left
unwritten, whatever the field held before. -/
theorem update_velocity_field_cell (snoise4 : ℝ → ℝ → ℝ → ℝ → ℝ)
    (quat_from_u2v : vec3 ℝ → vec3 ℝ → vec3 ℝ → quat ℝ)
    (quat_rot_vec : vec3 ℝ → quat ℝ → vec3 ℝ) (vf : velocity_field ℝ) (noise_scale w : ℝ)
    (f i j : Int) (hf : 0 ≤ f ∧ f ≤ 5) (hi : 0 ≤ i ∧ i < DIM) (hj : 0 ≤ j ∧ j < DIM) :
    ∃ (vf' : velocity_field ℝ) (P : vec3 ℝ),
      update_velocity_field Real.sqrt snoise4 quat_from_u2v quat_rot_vec vf noise_scale w =
        some vf' ∧
      fij_to_xyz Real.sqrt f i j = some P ∧
      vf'.v f i j = vec3_mul (curl quat_from_u2v quat_rot_vec (vec3_mul P noise_scale)
        (noise_gradient snoise4 (vec3_mul P noise_scale) (w * noise_scale) noise_scale))
        (velocity_factor ℝ) := by
  obtain ⟨vf', hvf', hall⟩ :=
    update_velocity_field_entries snoise4 quat_from_u2v quat_rot_vec vf noise_scale w
  obtain ⟨P, hP, hv⟩ := hall f i j hf hi hj
  exact ⟨vf', P, hvf', hP, hv⟩

/-- Witness of the amended C11: cell (5, 1023, 0), noise `x * w`, the identity rotation,
scale 2 and phase 1. -/
theorem update_velocity_field_cell_witness :
    ((0 : Int) ≤ 5 ∧ (5 : Int) ≤ 5) ∧ ((0 : Int) ≤ 1023 ∧ (1023 : Int) < DIM) ∧
      ((0 : Int) ≤ 0 ∧ (0 : Int) < DIM) ∧
      ∃ (vf' : velocity_field ℝ) (P : vec3 ℝ),
        update_velocity_field Real.sqrt (fun x _ _ w => x * w) (fun _ _ _ => ⟨1, 0, 0, 0⟩)
          quat_rotation ⟨fun _ _ _ => ⟨0, 0, 0⟩⟩ 2 1 = some vf' ∧
        fij_to_xyz Real.sqrt 5 1023 0 = some P ∧
        vf'.v 5 1023 0 = vec3_mul (curl (fun _ _ _ => ⟨1, 0, 0, 0⟩) quat_rotation (vec3_mul P 2)
          (noise_gradient (fun x _ _ w => x * w) (vec3_mul P 2) (1 * 2) 2))
          (velocity_factor ℝ) :=
  ⟨by decide, by decide, by decide,
    update_velocity_field_cell (fun x _ _ w => x * w) (fun _ _ _ => ⟨1, 0, 0, 0⟩)
      quat_rotation ⟨fun _ _ _ => ⟨0, 0, 0⟩⟩ 2 1 5 1023 0 (by decide) (by decide) (by decide)⟩

end FieldBuild

/-! ## Noise gradient: theorems -/

section Gradient

variable {K : Type} [LinearOrderedField K]

/-- C12 as stated fails: for the noise `x` (affine, gradient (1, 0, 0)) at the origin
with scale 1024, so d = 1, noise_gradient returns (2, 0, 0), while the central
difference quotient `(f (0 + 1) - f (0 - 1)) / (2 * 1)` is 1. -/
theorem noise_gradient_not_quotient :
    noise_gradient (fun x _ _ _ => x) (⟨0, 0, 0⟩ : vec3 ℚ) 0 1024 = ⟨2, 0, 0⟩ ∧
      ((fun (x : ℚ) (_ _ _ : ℚ) => x) (0 + 1) 0 0 0 -
        (fun (x : ℚ) (_ _ _ : ℚ) => x) (0 - 1) 0 0 0) / (2 * 1) = 1 ∧
      (2 : ℚ) ≠ 1 := by
  refine ⟨?_, by norm_num, by norm_num⟩
  simp only [noise_gradient, DIM]
  norm_num

/-- C12 amended: for every noise function, each component of noise_gradient is the
plain central difference of the noise along that axis, with step d = scale / DIM and the
fourth argument fixed to w; it is not divided by 2d.  So for a noise that is affine in
(x, y, z) at phase w, with gradient (a, b, c), it returns 2d times that gradient. -/
theorem noise_gradient_difference (snoise4 : K → K → K → K → K) (position : vec3 K)
    (w noise_scale : K) :
    noise_gradient snoise4 position w noise_scale =
        ⟨snoise4 (position.x + noise_scale / (DIM : K)) position.y position.z w -
            snoise4 (position.x - noise_scale / (DIM : K)) position.y position.z w,
          snoise4 position.x (position.y + noise_scale / (DIM : K)) position.z w -
            snoise4 position.x (position.y - noise_scale / (DIM : K)) position.z w,
          snoise4 position.x position.y (position.z + noise_scale / (DIM : K)) w -
            snoise4 position.x position.y (position.z - noise_scale / (DIM : K)) w⟩ ∧
      ∀ a b c k : K, (∀ x y z : K, snoise4 x y z w = a * x + b * y + c * z + k) →
        noise_gradient snoise4 position w noise_scale =
          ⟨2 * (noise_scale / (DIM : K)) * a, 2 * (noise_scale / (DIM : K)) * b,
            2 * (noise_scale / (DIM : K)) * c⟩ := by
  have hd : noise_scale * (1 / (((DIM : Int) : K))) = noise_scale / (DIM : K) := by
    rw [mul_one_div]
  constructor
  · simp only [noise_gradient, hd]
  · intro a b c k haff
    simp only [noise_gradient, hd, haff, vec3.mk.injEq]
    refine ⟨?_, ?_, ?_⟩ <;> ring

/-- Witness of the amended C12: the noise `t^2 x + 5 y - z + t`, which is not affine in
its fourth argument, at (1, 2, 3) with phase 2 and scale 512 (d = 1/2): at phase 2 it is
`4 x + 5 y - z + 2`, and the result is (4, 5, -1), the gradient times 2d = 1. -/
theorem noise_gradient_difference_witness :
    (∀ x y z : ℚ, (fun x y z t => t * t * x + 5 * y + (-1) * z + t) x y z 2 =
        4 * x + 5 * y + (-1) * z + 2) ∧
      noise_gradient (fun x y z t => t * t * x + 5 * y + (-1) * z + t)
        (⟨1, 2, 3⟩ : vec3 ℚ) 2 512 = ⟨4, 5, -1⟩ := by
  have haff : ∀ x y z : ℚ, (fun x y z t => t * t * x + 5 * y + (-1) * z + t) x y z 2 =
      4 * x + 5 * y + (-1) * z + 2 := by
    intro x y z
    ring
  have h := (noise_gradient_difference (fun x y z t => t * t * x + 5 * y + (-1) * z + t)
    (⟨1, 2, 3⟩ : vec3 ℚ) 2 512).2 4 5 (-1) 2 haff
  refine ⟨haff, ?_⟩
  rw [h]
  norm_num [DIM]

end Gradient

/-! ## Face tables and forward layout: theorems -/

section Tables

variable {K : Type} [LinearOrderedField K]

/-- C13 as stated fails: the y-fraction of face 0 (and of face 1) in
face_to_ydim_multiplier is 1/3, not 0. -/
theorem face0_y_fraction_not_zero :
    array_get (face_to_ydim_multiplier ℚ) 0 = some (1 / 3) ∧
      array_get (face_to_ydim_multiplier ℚ) 1 = some (1 / 3) ∧ (1 / 3 : ℚ) ≠ 0 :=
  ⟨rfl, rfl, by norm_num⟩

/-- C13 amended: the tables place face 0 at (1/4, 1/3) and face 1 at (1/2, 1/3), and
give faces 4 and 5 the distinct y-fractions 0 and 2/3. -/
theorem face_table_offsets :
    array_get (face_to_xdim_multiplier K) 0 = some (1 / 4) ∧
      array_get (face_to_ydim_multiplier K) 0 = some (1 / 3) ∧
      array_get (face_to_xdim_multiplier K) 1 = some (1 / 2) ∧
      array_get (face_to_ydim_multiplier K) 1 = some (1 / 3) ∧
      array_get (face_to_ydim_multiplier K) 4 = some 0 ∧
      array_get (face_to_ydim_multiplier K) 5 = some (2 / 3) ∧
      (0 : K) ≠ 2 / 3 :=
  ⟨rfl, rfl, rfl, rfl, rfl, rfl, by norm_num⟩

/-- C14: fij_to_xyz (f, i, j) is the normalization of the vector with fixed coordinate
z = DIM/2 (face 0) or z = -DIM/2 (face 2), x varying with i and y with j; x = DIM/2
(face 1) or x = -DIM/2 (face 3), z varying with i and y with j; y = DIM/2 (face 4) or
y = -DIM/2 (face 5), x varying with i and z with j; every varying coordinate is plus or
minus (index - DIM/2) / DIM. -/
theorem fij_to_xyz_layout (sqrt : K → K) (i j : Int) :
    fij_to_xyz sqrt 0 i j = vec3_normalize sqrt
        ⟨((i : K) - (DIM : K) / 2) / (DIM : K), -(((j : K) - (DIM : K) / 2) / (DIM : K)),
          (DIM : K) / 2⟩ ∧
      fij_to_xyz sqrt 1 i j = vec3_normalize sqrt
        ⟨(DIM : K) / 2, -(((j : K) - (DIM : K) / 2) / (DIM : K)),
          -(((i : K) - (DIM : K) / 2) / (DIM : K))⟩ ∧
      fij_to_xyz sqrt 2 i j = vec3_normalize sqrt
        ⟨-(((i : K) - (DIM : K) / 2) / (DIM : K)), -(((j : K) - (DIM : K) / 2) / (DIM : K)),
          -((DIM : K) / 2)⟩ ∧
      fij_to_xyz sqrt 3 i j = vec3_normalize sqrt
        ⟨-((DIM : K) / 2), -(((j : K) - (DIM : K) / 2) / (DIM : K)),
          ((i : K) - (DIM : K) / 2) / (DIM : K)⟩ ∧
      fij_to_xyz sqrt 4 i j = vec3_normalize sqrt
        ⟨((i : K) - (DIM : K) / 2) / (DIM : K), (DIM : K) / 2,
          ((j : K) - (DIM : K) / 2) / (DIM : K)⟩ ∧
      fij_to_xyz sqrt 5 i j = vec3_normalize sqrt
        ⟨((i : K) - (DIM : K) / 2) / (DIM : K), -((DIM : K) / 2),
          -(((j : K) - (DIM : K) / 2) / (DIM : K))⟩ := by
  have hi : ((i - DIM / 2 : Int) : K) / ((DIM : Int) : K) =
      ((i : K) - (DIM : K) / 2) / (DIM : K) := by
    simp only [DIM]; push_cast; norm_num
  have hj : ((j - DIM / 2 : Int) : K) / ((DIM : Int) : K) =
      ((j : K) - (DIM : K) / 2) / (DIM : K) := by
    simp only [DIM]; push_cast; norm_num
  have hni : -((i - DIM / 2 : Int) : K) / ((DIM : Int) : K) =
      -(((i : K) - (DIM : K) / 2) / (DIM : K)) := by rw [neg_div, hi]
  have hnj : -((j - DIM / 2 : Int) : K) / ((DIM : Int) : K) =
      -(((j : K) - (DIM : K) / 2) / (DIM : K)) := by rw [neg_div, hj]
  have hn : -((DIM : Int) : K) / 2 = -((DIM : K) / 2) := neg_div _ _
  refine ⟨?_, ?_, ?_, ?_, ?_, ?_⟩ <;>
    simp only [fij_to_xyz, fij_to_xyz_answer, XDIM, YDIM, Int.reduceEq, reduceIte,
      Option.some_bind, hi, hj, hni, hnj, hn]

end Tables

/-! ## Advection frame: theorems -/

section FrameList

variable {K : Type}

/-- A list returned by mapping a color-preserving step has the colors of the input list,
in the same order. -/
theorem mapM_colors (step : particle K → Option (particle K))
    (hstep : ∀ x y, step x = some y → y.c = x.c) (p q : List (particle K))
    (h : p.mapM step = some q) : q.map (fun x => x.c) = p.map (fun x => x.c) := by
  induction p generalizing q with
  | nil =>
    simp only [List.mapM_nil] at h
    injection h with h
    subst h
    rfl
  | cons x p ih =>
    simp only [List.mapM_cons, Option.bind_eq_bind, Option.bind_eq_some, Option.pure_def,
      Option.some.injEq] at h
    obtain ⟨y, hy, q', hq', rfl⟩ := h
    simp only [List.map_cons, hstep x y hy, ih q' hq']

end FrameList

section Frame

variable {K : Type} [LinearOrderedField K] [FloorRing K]

/-- A particle returned by move_particle carries the color it had. -/
theorem move_particle_color (sqrt : K → K) (p q : particle K) (vf : velocity_field K)
    (h : move_particle sqrt p vf = some q) : q.c = p.c := by
  simp only [move_particle, Option.bind_eq_some] at h
  obtain ⟨a, -, v, -, n, -, h⟩ := h
  injection h with h
  subst h
  rfl

/-- When move_particles returns the list q for the particles p, q has as many particles
as p and the same colors in the same order (any field, any square root). -/
theorem move_particles_colors (sqrt : K → K) (p q : List (particle K)) (vf : velocity_field K)
    (h : move_particles sqrt p vf = some q) :
    q.length = p.length ∧ q.map (fun x => x.c) = p.map (fun x => x.c) := by
  have hc := mapM_colors (fun x => move_particle sqrt x vf)
    (fun x y hxy => move_particle_color sqrt x y vf hxy) p q h
  refine ⟨?_, hc⟩
  have hl := congrArg List.length hc
  simpa using hl

end Frame

section FrameReal

/-- Over the reals move_particle returns a particle when the position and the position
plus the velocity of its cell are not zero. -/
theorem move_particle_some (p : particle ℝ) (vf : velocity_field ℝ)
    (hp : p.pos ≠ { x := 0, y := 0, z := 0 })
    (hv : ∀ a : fij, xyz_to_fij Real.sqrt p.pos = some a →
      vec3_add p.pos (vf.v a.f a.i a.j) ≠ { x := 0, y := 0, z := 0 }) :
    ∃ q : particle ℝ, move_particle Real.sqrt p vf = some q := by
  obtain ⟨a, ha, -, -, -, hread⟩ := xyz_to_fij_in_bounds_aux p.pos hp
  have hn := vec3_normalize_eq _ (hv a ha)
  simp only [move_particle, ha, Option.some_bind, hread vf, hn]
  exact ⟨_, rfl⟩

/-- Over the reals move_particles returns a list when every particle has a non-zero
position and a non-zero position plus velocity. -/
theorem move_particles_some (p : List (particle ℝ)) (vf : velocity_field ℝ)
    (hp : ∀ x ∈ p, x.pos ≠ { x := 0, y := 0, z := 0 } ∧
      ∀ a : fij, xyz_to_fij Real.sqrt x.pos = some a →
        vec3_add x.pos (vf.v a.f a.i a.j) ≠ { x := 0, y := 0, z := 0 }) :
    ∃ q : List (particle ℝ), move_particles Real.sqrt p vf = some q := by
  induction p with
  | nil => exact ⟨[], rfl⟩
  | cons x p ih =>
    obtain ⟨y, hy⟩ := move_particle_some x vf (hp x (List.mem_cons_self x p)).1
      (hp x (List.mem_cons_self x p)).2
    obtain ⟨q, hq⟩ := ih (fun z hz => hp z (List.mem_cons_of_mem x hz))
    refine ⟨y :: q, ?_⟩
    unfold move_particles at hq ⊢
    simp only [List.mapM_cons, hy, hq]
    rfl

/-- C15: for every particle list p and velocity field, whenever move_particles returns a
list q, q has as many particles as p and the same colors in the same order, so only the
positions may differ; the velocity field is only read (move_particles returns no field).
It does return a list when every particle has a non-zero position and a non-zero
position plus velocity. -/
theorem move_particles_frame (p : List (particle ℝ)) (vf : velocity_field ℝ) :
    (∀ q : List (particle ℝ), move_particles Real.sqrt p vf = some q →
      q.length = p.length ∧ q.map (fun x => x.c) = p.map (fun x => x.c)) ∧
    ((∀ x ∈ p, x.pos ≠ { x := 0, y := 0, z := 0 } ∧
        ∀ a : fij, xyz_to_fij Real.sqrt x.pos = some a →
          vec3_add x.pos (vf.v a.f a.i a.j) ≠ { x := 0, y := 0, z := 0 }) →
      ∃ q : List (particle ℝ), move_particles Real.sqrt p vf = some q) :=
  ⟨fun q h => move_particles_colors Real.sqrt p q vf h, move_particles_some p vf⟩

/-- Witness of C15: two particles, at (0, 0, 2) and (3, 0, 0), in the constant field
(0, 1, 0); move_particles returns two particles, red then blue. -/
theorem move_particles_frame_witness :
    ∃ q : List (particle ℝ),
      move_particles Real.sqrt [⟨⟨0, 0, 2⟩, ⟨1, 0, 0, 1⟩⟩, ⟨⟨3, 0, 0⟩, ⟨0, 0, 1, 1⟩⟩]
        ⟨fun _ _ _ => ⟨0, 1, 0⟩⟩ = some q ∧
      q.length = 2 ∧ q.map (fun x => x.c) = [⟨1, 0, 0, 1⟩, ⟨0, 0, 1, 1⟩] := by
  have h := move_particles_frame [⟨⟨0, 0, 2⟩, ⟨1, 0, 0, 1⟩⟩, ⟨⟨3, 0, 0⟩, ⟨0, 0, 1, 1⟩⟩]
    ⟨fun _ _ _ => ⟨0, 1, 0⟩⟩
  obtain ⟨q, hq⟩ := h.2 (by
    intro x hx
    simp only [List.mem_cons, List.mem_singleton, List.not_mem_nil, or_false] at hx
    rcases hx with rfl | rfl
    · exact ⟨by simp, fun a _ => by simp [vec3_add]⟩
    · exact ⟨by simp, fun a _ => by simp [vec3_add]⟩)
  exact ⟨q, hq, h.1 q hq⟩

end FrameReal

/-! ## Curl step and scale invariance: theorems -/

section CurlStep

/-- C16 (code defect): the swap-and-zero step is a mirror image, not a quarter turn.
At straight-up with the identity quaternion (1, 0, 0, 0) the two rotations of curl do
nothing, so curl returns what the step produces: (z, 0, x) for the gradient (x, y, z).
For (1, 5, 2) that is (2, 0, 1), whose dot product with the horizontal projection
(1, 0, 2) is 4, not 0. -/
theorem curl_step_not_orthogonal :
    (∀ g : vec3 ℚ, curl (fun _ _ _ => ⟨1, 0, 0, 0⟩) quat_rotation ⟨0, 1, 0⟩ g =
        ⟨g.z, 0, g.x⟩) ∧
      curl (fun _ _ _ => ⟨1, 0, 0, 0⟩) quat_rotation (⟨0, 1, 0⟩ : vec3 ℚ) ⟨1, 5, 2⟩ =
        ⟨2, 0, 1⟩ ∧
      vec3_dot (curl (fun _ _ _ => ⟨1, 0, 0, 0⟩) quat_rotation (⟨0, 1, 0⟩ : vec3 ℚ) ⟨1, 5, 2⟩)
        ⟨1, 0, 2⟩ = 4 := by
  have h : ∀ g : vec3 ℚ, curl (fun _ _ _ => ⟨1, 0, 0, 0⟩) quat_rotation ⟨0, 1, 0⟩ g =
      ⟨g.z, 0, g.x⟩ := by
    intro g
    simp only [curl, quat_rotation, vec3.mk.injEq]
    refine ⟨?_, ?_, ?_⟩ <;> ring
  refine ⟨h, h _, ?_⟩
  rw [h]
  norm_num [vec3_dot]

end CurlStep

section Scale

/-- C17: for every face f in 0..5 and all i, j in [0, DIM), xyz_to_fij of
fij_to_xyz (f, i, j) returns a cell, and its face is f. -/
theorem roundtrip_face (f i j : Int) (hf : 0 ≤ f ∧ f ≤ 5) (hi : 0 ≤ i ∧ i < DIM)
    (hj : 0 ≤ j ∧ j < DIM) :
    ∃ a : fij, (fij_to_xyz Real.sqrt f i j).bind (xyz_to_fij Real.sqrt) = some a ∧ a.f = f :=
  ⟨_, roundtrip_cell f i j hf hi hj, rfl⟩

/-- Witness of C17 at the cell (3, 7, 900). -/
theorem roundtrip_face_witness :
    ((0 : Int) ≤ 3 ∧ (3 : Int) ≤ 5) ∧ ((0 : Int) ≤ 7 ∧ (7 : Int) < DIM) ∧
      ((0 : Int) ≤ 900 ∧ (900 : Int) < DIM) ∧
      ∃ a : fij, (fij_to_xyz Real.sqrt 3 7 900).bind (xyz_to_fij Real.sqrt) = some a ∧ a.f = 3 :=
  ⟨by decide, by decide, by decide, roundtrip_face 3 7 900 (by decide) (by decide) (by decide)⟩

/-- C18: for every non-zero vector p and every k > 0, xyz_to_fij returns a cell for p
and the same cell for k * p. -/
theorem xyz_to_fij_scale (p : vec3 ℝ) (k : ℝ) (hp : p ≠ { x := 0, y := 0, z := 0 })
    (hk : 0 < k) :
    (∃ a : fij, xyz_to_fij Real.sqrt p = some a) ∧
      xyz_to_fij Real.sqrt (vec3_mul p k) = xyz_to_fij Real.sqrt p := by
  obtain ⟨a, ha, -⟩ := xyz_to_fij_in_bounds_aux p hp
  refine ⟨⟨a, ha⟩, ?_⟩
  have hkp : vec3_mul p k ≠ { x := 0, y := 0, z := 0 } := by
    rw [vec3_ne_zero_iff]
    rcases (vec3_ne_zero_iff p).mp hp with h | h | h
    · exact Or.inl (mul_ne_zero h hk.ne')
    · exact Or.inr (Or.inl (mul_ne_zero h hk.ne'))
    · exact Or.inr (Or.inr (mul_ne_zero h hk.ne'))
  rw [xyz_to_fij_eq_cell _ hkp, xyz_to_fij_eq_cell p hp]
  have h := xyz_to_fij_cell_scale p k⁻¹ (inv_pos.mpr hk)
  simp only [div_inv_eq_mul] at h
  exact h

/-- Witness of C18: the unit vector (3/5, 0, 4/5) and the same direction at the working
radius 512. -/
theorem xyz_to_fij_scale_witness :
    ((⟨3 / 5, 0, 4 / 5⟩ : vec3 ℝ) ≠ { x := 0, y := 0, z := 0 }) ∧ ((0 : ℝ) < 512) ∧
      (∃ a : fij, xyz_to_fij Real.sqrt (⟨3 / 5, 0, 4 / 5⟩ : vec3 ℝ) = some a) ∧
      xyz_to_fij Real.sqrt (vec3_mul (⟨3 / 5, 0, 4 / 5⟩ : vec3 ℝ) 512) =
        xyz_to_fij Real.sqrt (⟨3 / 5, 0, 4 / 5⟩ : vec3 ℝ) := by
  have h1 : (⟨3 / 5, 0, 4 / 5⟩ : vec3 ℝ) ≠ { x := 0, y := 0, z := 0 } := by
    rw [vec3_ne_zero_iff]; left; norm_num
  have h2 : (0 : ℝ) < 512 := by norm_num
  have h := xyz_to_fij_scale _ 512 h1 h2
  exact ⟨h1, h2, h.1, h.2⟩

end Scale

/-! ## Native-size sampling and blend range: theorems -/

section Native

variable {K : Type} [LinearOrderedField K] [FloorRing K]

/-- The conversion `(int) x` of an integer-valued float returns that integer. -/
theorem float_to_int_intCast (n : Int) : float_to_int ((n : Int) : K) = n := by
  unfold float_to_int
  split_ifs
  · exact Int.floor_intCast n
  · exact Int.ceil_intCast n

/-- C19: on a source image of width 4 * DIM and height 3 * DIM, for every face f in 0..5
and all i, j in [0, DIM), the pixel index of init_particles is
(3 * DIM * my + j) * (4 * DIM) + (4 * DIM * mx + i), with mx and my the entries of face f
in the two offset tables, and it lies in [0, 12 * DIM * DIM). -/
theorem init_particles_pn_native (f i j : Int) (hf : 0 ≤ f ∧ f ≤ 5) (hi : 0 ≤ i ∧ i < DIM)
    (hj : 0 ≤ j ∧ j < DIM) :
    ∃ (mx my : K) (pn : Int),
      array_get (face_to_xdim_multiplier K) f = some mx ∧
      array_get (face_to_ydim_multiplier K) f = some my ∧
      init_particles_pn K (4 * DIM) (3 * DIM) { f := f, i := i, j := j } = some pn ∧
      (pn : K) = (3 * (DIM : K) * my + (j : K)) * (4 * (DIM : K)) + (4 * (DIM : K) * mx + (i : K)) ∧
      0 ≤ pn ∧ pn < 12 * DIM * DIM := by
  obtain ⟨hf0, hf5⟩ := hf
  obtain ⟨hi0, hi1⟩ := hi
  obtain ⟨hj0, hj1⟩ := hj
  simp only [DIM] at hi1 hj1
  have key : ∀ (mx my : K) (c r : Int), 4 * 1024 * mx = (c : K) → 3 * 1024 * my = (r : K) →
      array_get (face_to_xdim_multiplier K) f = some mx →
      array_get (face_to_ydim_multiplier K) f = some my →
      init_particles_pn K (4 * DIM) (3 * DIM) { f := f, i := i, j := j } =
          some ((r + j) * 4096 + (c + i)) ∧
        (((r + j) * 4096 + (c + i) : Int) : K) =
          (3 * (DIM : K) * my + (j : K)) * (4 * (DIM : K)) + (4 * (DIM : K) * mx + (i : K)) := by
    intro mx my c r hc hr hmx hmy
    have hval : ((((3 * 1024 : Int) : K)) * my + (((3 * 1024 : Int) : K)) * (1 / 3) * (j : K) /
        ((1024 : Int) : K)) * (((4 * 1024 : Int) : K)) +
        ((((4 * 1024 : Int) : K)) * mx + (((4 * 1024 : Int) : K)) * (1 / 4) * (i : K) /
        ((1024 : Int) : K)) = (((r + j) * 4096 + (c + i) : Int) : K) := by
      push_cast
      rw [← hc, ← hr]
      ring
    constructor
    · simp only [init_particles_pn, hmx, hmy, Option.some_bind, DIM, hval, float_to_int_intCast]
    · simp only [DIM]
      push_cast
      rw [← hc, ← hr]
      ring
  obtain rfl | rfl | rfl | rfl | rfl | rfl : f = 0 ∨ f = 1 ∨ f = 2 ∨ f = 3 ∨ f = 4 ∨ f = 5 := by
    omega
  · obtain ⟨h1, h2⟩ := key (1 / 4) (1 / 3) 1024 1024 (by norm_num) (by norm_num) rfl rfl
    exact ⟨_, _, _, rfl, rfl, h1, h2, by omega, by simp only [DIM]; omega⟩
  · obtain ⟨h1, h2⟩ := key (1 / 2) (1 / 3) 2048 1024 (by norm_num) (by norm_num) rfl rfl
    exact ⟨_, _, _, rfl, rfl, h1, h2, by omega, by simp only [DIM]; omega⟩
  · obtain ⟨h1, h2⟩ := key (3 / 4) (1 / 3) 3072 1024 (by norm_num) (by norm_num) rfl rfl
    exact ⟨_, _, _, rfl, rfl, h1, h2, by omega, by simp only [DIM]; omega⟩
  · obtain ⟨h1, h2⟩ := key 0 (1 / 3) 0 1024 (by norm_num) (by norm_num) rfl rfl
    exact ⟨_, _, _, rfl, rfl, h1, h2, by omega, by simp only [DIM]; omega⟩
  · obtain ⟨h1, h2⟩ := key (1 / 4) 0 1024 0 (by norm_num) (by norm_num) rfl rfl
    exact ⟨_, _, _, rfl, rfl, h1, h2, by omega, by simp only [DIM]; omega⟩
  · obtain ⟨h1, h2⟩ := key (1 / 4) (2 / 3) 1024 2048 (by norm_num) (by norm_num) rfl rfl
    exact ⟨_, _, _, rfl, rfl, h1, h2, by omega, by simp only [DIM]; omega⟩

/-- Witness of C19 over the rationals at the cell (5, 1023, 1023), the last pixel of
the image: pn = 3071 * 4096 + 2047. -/
theorem init_particles_pn_native_witness :
    ((0 : Int) ≤ 5 ∧ (5 : Int) ≤ 5) ∧ ((0 : Int) ≤ 1023 ∧ (1023 : Int) < DIM) ∧
      ∃ (mx my : ℚ) (pn : Int),
        array_get (face_to_xdim_multiplier ℚ) 5 = some mx ∧
        array_get (face_to_ydim_multiplier ℚ) 5 = some my ∧
        init_particles_pn ℚ (4 * DIM) (3 * DIM) { f := 5, i := 1023, j := 1023 } = some pn ∧
        (pn : ℚ) = (3 * (DIM : ℚ) * my + ((1023 : Int) : ℚ)) * (4 * (DIM : ℚ)) +
          (4 * (DIM : ℚ) * mx + ((1023 : Int) : ℚ)) ∧
        0 ≤ pn ∧ pn < 12 * DIM * DIM :=
  ⟨by decide, by decide,
    init_particles_pn_native 5 1023 1023 (by decide) (by decide) (by decide)⟩

end Native

section BlendRange

variable {K : Type} [LinearOrderedField K]

/-- C20 amended: in exact arithmetic, when the four components of oc and of c lie in
[0, 1] and the output alpha `c.a + oc.a * (1 - c.a)` is positive, combine_color returns a
color whose four components lie in [0, 1]. -/
theorem combine_color_in_range (oc c : color K)
    (hoc : (0 ≤ oc.r ∧ oc.r ≤ 1) ∧ (0 ≤ oc.g ∧ oc.g ≤ 1) ∧ (0 ≤ oc.b ∧ oc.b ≤ 1) ∧
      (0 ≤ oc.a ∧ oc.a ≤ 1))
    (hc : (0 ≤ c.r ∧ c.r ≤ 1) ∧ (0 ≤ c.g ∧ c.g ≤ 1) ∧ (0 ≤ c.b ∧ c.b ≤ 1) ∧
      (0 ≤ c.a ∧ c.a ≤ 1))
    (ha : 0 < c.a + oc.a * (1 - c.a)) :
    ∃ nc : color K, combine_color oc c = some nc ∧
      (0 ≤ nc.r ∧ nc.r ≤ 1) ∧ (0 ≤ nc.g ∧ nc.g ≤ 1) ∧ (0 ≤ nc.b ∧ nc.b ≤ 1) ∧
      (0 ≤ nc.a ∧ nc.a ≤ 1) := by
  obtain ⟨⟨hr0, hr1⟩, ⟨hg0, hg1⟩, ⟨hb0, hb1⟩, ha0, ha1⟩ := hoc
  obtain ⟨⟨cr0, cr1⟩, ⟨cg0, cg1⟩, ⟨cb0, cb1⟩, ca0, ca1⟩ := hc
  have h1 : 0 ≤ 1 - c.a := by linarith
  have hw : 0 ≤ oc.a * (1 - c.a) := mul_nonneg ha0 h1
  -- one channel: the blend is between 0 and the output alpha
  have hch : ∀ u o : K, 0 ≤ u → u ≤ 1 → 0 ≤ o → o ≤ 1 →
      0 ≤ alphablendcolor u oc.a o c.a / (c.a + oc.a * (1 - c.a)) ∧
        alphablendcolor u oc.a o c.a / (c.a + oc.a * (1 - c.a)) ≤ 1 := by
    intro u o hu0 hu1 ho0 ho1
    have hn0 : 0 ≤ alphablendcolor u oc.a o c.a := by
      unfold alphablendcolor
      have e1 := mul_nonneg ho0 ca0
      have e2 := mul_nonneg hu0 hw
      have e3 : u * oc.a * (1 - c.a) = u * (oc.a * (1 - c.a)) := by ring
      linarith
    have hn1 : alphablendcolor u oc.a o c.a ≤ c.a + oc.a * (1 - c.a) := by
      unfold alphablendcolor
      have h2 : o * c.a ≤ 1 * c.a := mul_le_mul_of_nonneg_right ho1 ca0
      have h3 : u * (oc.a * (1 - c.a)) ≤ 1 * (oc.a * (1 - c.a)) :=
        mul_le_mul_of_nonneg_right hu1 hw
      have e3 : u * oc.a * (1 - c.a) = u * (oc.a * (1 - c.a)) := by ring
      linarith
    exact ⟨div_nonneg hn0 ha.le, (div_le_one ha).mpr hn1⟩
  have hres : combine_color oc c = some
      ⟨alphablendcolor oc.r oc.a c.r c.a / (c.a + oc.a * (1 - c.a)),
        alphablendcolor oc.g oc.a c.g c.a / (c.a + oc.a * (1 - c.a)),
        alphablendcolor oc.b oc.a c.b c.a / (c.a + oc.a * (1 - c.a)),
        c.a + oc.a * (1 - c.a)⟩ := by
    simp only [combine_color, fdiv, ha.ne', if_false, Option.some_bind]
  refine ⟨_, hres, hch _ _ hr0 hr1 cr0 cr1, hch _ _ hg0 hg1 cg0 cg1, hch _ _ hb0 hb1 cb0 cb1,
    ha.le, ?_⟩
  show c.a + oc.a * (1 - c.a) ≤ 1
  have h4 : oc.a * (1 - c.a) ≤ 1 * (1 - c.a) := mul_le_mul_of_nonneg_right ha1 h1
  linarith

/-- Witness of the amended C20 over the rationals: half-transparent green over opaque
red. -/
theorem combine_color_in_range_witness :
    ((0 : ℚ) < 1 / 2 + 1 * (1 - 1 / 2)) ∧
      ∃ nc : color ℚ, combine_color ⟨1, 0, 0, 1⟩ ⟨0, 1, 0, 1 / 2⟩ = some nc ∧
        (0 ≤ nc.r ∧ nc.r ≤ 1) ∧ (0 ≤ nc.g ∧ nc.g ≤ 1) ∧ (0 ≤ nc.b ∧ nc.b ≤ 1) ∧
        (0 ≤ nc.a ∧ nc.a ≤ 1) :=
  ⟨by norm_num,
    combine_color_in_range (⟨1, 0, 0, 1⟩ : color ℚ) ⟨0, 1, 0, 1 / 2⟩ (by norm_num) (by norm_num)
      (by norm_num)⟩

end BlendRange

/-! ## Blend range in binary32: theorems -/

section FloatBlend

variable {K : Type} [LinearOrderedField K] [FloorRing K]

/-- A number in the lower half of the interval above the integer f rounds to f. -/
theorem round_half_even_down (x : K) (f : Int) (h1 : (f : K) ≤ x) (h2 : x < (f : K) + 1 / 2) :
    round_half_even x = f := by
  have hf : ⌊x⌋ = f := Int.floor_eq_iff.mpr ⟨h1, by linarith⟩
  unfold round_half_even
  rw [hf, if_pos (by linarith)]

/-- A number in the upper half of the interval below the integer g rounds to g. -/
theorem round_half_even_up (x : K) (g : Int) (h1 : (g : K) - 1 / 2 < x) (h2 : x < (g : K)) :
    round_half_even x = g := by
  have hf : ⌊x⌋ = g - 1 := Int.floor_eq_iff.mpr ⟨by push_cast; linarith, by push_cast; linarith⟩
  unfold round_half_even
  rw [hf, if_neg (by push_cast; linarith), if_pos (by push_cast; linarith)]
  ring

/-- The midpoint above an even integer f rounds to f. -/
theorem round_half_even_tie (x : K) (f : Int) (h1 : x = (f : K) + 1 / 2) (h2 : f % 2 = 0) :
    round_half_even x = f := by
  have hf : ⌊x⌋ = f := Int.floor_eq_iff.mpr ⟨by linarith, by linarith⟩
  unfold round_half_even
  rw [hf, if_neg (by linarith), if_neg (by linarith), if_pos h2]

/-- The rounding of a positive x with 2^e <= x < 2^(e+1), e not below emin, is the
rounded multiple m of the unit 2^(e - (p - 1)). -/
theorem float_round_eq (p : Nat) (emin e m : Int) (x : K) (hx : 0 < x)
    (he1 : (2 : K) ^ e ≤ x) (he2 : x < (2 : K) ^ (e + 1)) (hemin : emin ≤ e)
    (hm : round_half_even (x / 2 ^ (e - ((p : Int) - 1))) = m) :
    float_round p emin x = (m : K) * 2 ^ (e - ((p : Int) - 1)) := by
  have hlog : Int.log 2 |x| = e := by
    rw [abs_of_pos hx]
    apply le_antisymm
    · have := (Int.lt_zpow_iff_log_lt (b := 2) (by norm_num) hx).mp (by exact_mod_cast he2)
      omega
    · exact (Int.zpow_le_iff_le_log (b := 2) (by norm_num) hx).mp (by exact_mod_cast he1)
  unfold float_round
  rw [if_neg hx.ne', hlog, max_eq_left hemin, hm]

end FloatBlend

section FloatBlendEval

/-- With no rounding, combine_color_float is combine_color. -/
theorem combine_color_float_exact {K : Type} [LinearOrderedField K] (oc c : color K) :
    combine_color_float id id oc c = combine_color oc c := rfl

/-- C20 as stated fails on the float arithmetic of the code: for the white colors
oc = (1, 1, 1, 0x1.e8f42ep-1) and c = (1, 1, 1, 0x1.17f9ccp-1), whose components lie in
[0, 1] and whose output alpha is positive, combine_color in binary32 returns
r = g = b = 1 + 2^-23, above 1: the blended channel is rounded once from double, the
alpha it is divided by is rounded at each float operation. -/
theorem combine_color_float_exceeds_one :
    ((0 : ℚ) ≤ 16022039 / 16777216 ∧ (16022039 / 16777216 : ℚ) ≤ 1) ∧ ((0 : ℚ) ≤ 4587123 / 8388608 ∧ (4587123 / 8388608 : ℚ) ≤ 1) ∧
      ((0 : ℚ) < 4587123 / 8388608 + 16022039 / 16777216 * (1 - 4587123 / 8388608)) ∧
      combine_color_float binary32 binary64 (⟨1, 1, 1, 16022039 / 16777216⟩ : color ℚ)
          ⟨1, 1, 1, 4587123 / 8388608⟩ =
        some ⟨8388609 / 8388608, 8388609 / 8388608, 8388609 / 8388608, 8217495 / 8388608⟩ ∧
      (1 : ℚ) < 8388609 / 8388608 := by
  have h1 : binary32 (1 - 4587123 / 8388608 : ℚ) = 3801485 / 8388608 := by
    unfold binary32
    rw [float_round_eq 24 (-126) (-2) 15205940 _ (by norm_num) (by norm_num) (by norm_num)
      (by norm_num) (round_half_even_down _ _ (by norm_num) (by norm_num))]
    norm_num
  have h2 : binary32 (16022039 / 16777216 * (3801485 / 8388608) : ℚ) = 14521489 / 33554432 := by
    unfold binary32
    rw [float_round_eq 24 (-126) (-2) 14521489 _ (by norm_num) (by norm_num) (by norm_num)
      (by norm_num) (round_half_even_down _ _ (by norm_num) (by norm_num))]
    norm_num
  have h3 : binary32 (4587123 / 8388608 + 14521489 / 33554432 : ℚ) = 8217495 / 8388608 := by
    unfold binary32
    rw [float_round_eq 24 (-126) (-1) 16434990 _ (by norm_num) (by norm_num) (by norm_num)
      (by norm_num) (round_half_even_tie _ _ (by norm_num) (by decide))]
    norm_num
  have h4 : binary32 (1 * (4587123 / 8388608) : ℚ) = 4587123 / 8388608 := by
    unfold binary32
    rw [float_round_eq 24 (-126) (-1) 9174246 _ (by norm_num) (by norm_num) (by norm_num)
      (by norm_num) (round_half_even_down _ _ (by norm_num) (by norm_num))]
    norm_num
  have h5 : binary32 (1 * (16022039 / 16777216) : ℚ) = 16022039 / 16777216 := by
    unfold binary32
    rw [float_round_eq 24 (-126) (-1) 16022039 _ (by norm_num) (by norm_num) (by norm_num)
      (by norm_num) (round_half_even_down _ _ (by norm_num) (by norm_num))]
    norm_num
  have h6 : binary64 (1 - 4587123 / 8388608 : ℚ) = 3801485 / 8388608 := by
    unfold binary64
    rw [float_round_eq 53 (-1022) (-2) 8163626875617280 _ (by norm_num) (by norm_num) (by norm_num)
      (by norm_num) (round_half_even_down _ _ (by norm_num) (by norm_num))]
    norm_num
  have h7 : binary64 (16022039 / 16777216 * (3801485 / 8388608) : ℚ) = 60907540927915 / 140737488355328 := by
    unfold binary64
    rw [float_round_eq 53 (-1022) (-2) 7796165238773120 _ (by norm_num) (by norm_num) (by norm_num)
      (by norm_num) (round_half_even_down _ _ (by norm_num) (by norm_num))]
    norm_num
  have h8 : binary64 (4587123 / 8388608 + 60907540927915 / 140737488355328 : ℚ) = 137866694317483 / 140737488355328 := by
    unfold binary64
    rw [float_round_eq 53 (-1022) (-1) 8823468436318912 _ (by norm_num) (by norm_num) (by norm_num)
      (by norm_num) (round_half_even_down _ _ (by norm_num) (by norm_num))]
    norm_num
  have h9 : binary32 (137866694317483 / 140737488355328 : ℚ) = 16434991 / 16777216 := by
    unfold binary32
    rw [float_round_eq 24 (-126) (-1) 16434991 _ (by norm_num) (by norm_num) (by norm_num)
      (by norm_num) (round_half_even_up _ _ (by norm_num) (by norm_num))]
    norm_num
  have h10 : binary32 (16434991 / 16777216 / (8217495 / 8388608) : ℚ) = 8388609 / 8388608 := by
    unfold binary32
    rw [float_round_eq 24 (-126) (0) 8388609 _ (by norm_num) (by norm_num) (by norm_num)
      (by norm_num) (round_half_even_up _ _ (by norm_num) (by norm_num))]
    norm_num
  have ha : ¬ ((8217495 / 8388608 : ℚ) = 0) := by norm_num
  refine ⟨by norm_num, by norm_num, by norm_num, ?_, by norm_num⟩
  simp only [combine_color_float, alphablendcolor_float, h1, h2, h3, h4, h5, h6, h7, h8, h9,
    fdiv, ha, if_false, Option.some_bind, h10]

end FloatBlendEval

end GaseousGiganticus
